import Mathlib

/-
Shallow embedding of src/packages/web/src/designer/GraphLayout.ts.

Modelling conventions:
- JavaScript numbers are modelled as real numbers; node dimensions (inputs)
  are rationals coerced into the reals so that graph-structural properties
  stay decidable, while all derived geometry (radius, positions, forces,
  scores) lives in the reals.
- The JS dictionaries keyed by `designerId` are modelled as lists in
  insertion order; JS object-reference equality between graph nodes is
  modelled as equality of their `designerId` keys (object identity and id
  coincide for every reachable graph state).
- The force accumulator (a dictionary with absent keys) is modelled as a
  total function `String -> Vector2D` defaulting to the zero vector; adding
  a force to an absent key and storing it equals adding it to zero.
- JS runtime failures (dereferencing `null`/`undefined`) are modelled by
  `Option`: `tryMoveElement` returns `none` when the source would return
  `null`, and `doMoveSteps` returns `none` where the source would throw.
-/

namespace GraphLayoutSpec

noncomputable section

/-- REPULSION and friends: tuning constants of GraphLayout.ts, lines 4-14. -/
def MIN_NODE_DISTANCE : ℝ := 50

/-- Spring rest length (GraphLayout.ts line 5). -/
def SPRING_LENGTH : ℝ := 100

/-- Number of relaxation steps (GraphLayout.ts line 6). -/
def SPRINGY_STEPS : ℕ := 50

/-- Gravity constant (GraphLayout.ts line 7). -/
def GRAVITY : ℝ := 0.01

/-- Repulsion constant (GraphLayout.ts line 8). -/
def REPULSION : ℝ := 500000

/-- Per-application force cap (GraphLayout.ts line 9). -/
def MAX_FORCE_SIZE : ℝ := 100

/-- Padding margin used for overlap scoring (GraphLayout.ts line 10). -/
def NODE_MARGIN : ℝ := 20

/-- Small discrete move distance (GraphLayout.ts line 11). -/
def MOVE_STEP : ℝ := 20

/-- Large diagonal discrete move distance (GraphLayout.ts line 12). -/
def MOVE_BIG_STEP : ℝ := 70

/-- Maximum number of refinement steps (GraphLayout.ts line 13). -/
def MOVE_STEP_COUNT : ℕ := 1000

/-- Minimal score improvement to continue refinement (GraphLayout.ts line 14). -/
def MINIMAL_SCORE_BENEFIT : ℝ := 1

/-- Modelled from the spec: designerMath.ts is not under src/; the spec lists
"Geometry utilities (vectors, rectangle distance, rectangle intersection
area)". A 2D vector with the springy-style operations used by GraphLayout.ts. -/
structure Vector2D where
  x : ℝ
  y : ℝ

/-- Vector addition. -/
def Vector2D.add (a b : Vector2D) : Vector2D := ⟨a.x + b.x, a.y + b.y⟩

/-- Vector subtraction. -/
def Vector2D.subtract (a b : Vector2D) : Vector2D := ⟨a.x - b.x, a.y - b.y⟩

/-- Scalar multiplication (vector `multiply` in springy-style vector APIs). -/
def Vector2D.multiply (a : Vector2D) (s : ℝ) : Vector2D := ⟨a.x * s, a.y * s⟩

/-- Scalar division. Division by zero follows the Lean convention `x / 0 = 0`
(the JS source never divides a nonzero vector by zero in the runs the claims
quantify over). -/
def Vector2D.divide (a : Vector2D) (s : ℝ) : Vector2D := ⟨a.x / s, a.y / s⟩

/-- Euclidean norm of a vector. -/
def Vector2D.magnitude (a : Vector2D) : ℝ :=
  Real.sqrt (a.x * a.x + a.y * a.y)

/-- Normalisation: divide by the magnitude. -/
def Vector2D.normalise (a : Vector2D) : Vector2D :=
  a.divide a.magnitude

/-- Zero vector. -/
def Vector2D.zero : Vector2D := ⟨0, 0⟩

/-- Sum of a list of vectors (accumulating with `Vector2D.add`). -/
def vsum : List Vector2D → Vector2D
  | [] => Vector2D.zero
  | v :: rest => v.add (vsum rest)

/-- Modelled from the spec: axis-aligned bounding-box record (`IBoxBounds`
from designerMath.ts, which is not under src/). -/
structure IBoxBounds where
  left : ℝ
  top : ℝ
  right : ℝ
  bottom : ℝ

/-- Modelled from the spec: `rectangleDistance` from designerMath.ts (not under
src/); the spec calls it "rectangle distance" and "rectangle-to-rectangle
distance between the two nodes": the Euclidean distance between the closest
points of two axis-aligned rectangles, 0 when they intersect. -/
def rectangleDistance (r1 r2 : IBoxBounds) : ℝ :=
  let dx := max 0 (max (r1.left - r2.right) (r2.left - r1.right))
  let dy := max 0 (max (r1.top - r2.bottom) (r2.top - r1.bottom))
  Real.sqrt (dx * dx + dy * dy)

/-- Modelled from the spec: `rectangleIntersectArea` from designerMath.ts (not
under src/); the spec calls it "rectangle intersection area". -/
def rectangleIntersectArea (r1 r2 : IBoxBounds) : ℝ :=
  max 0 (min r1.right r2.right - max r1.left r2.left) *
    max 0 (min r1.bottom r2.bottom - max r1.top r2.top)

/-- GraphNode (GraphLayout.ts lines 16-24). `neightboors` (sic, source
spelling) holds ids of adjacent nodes; it is empty until the graph is
initialized. `radius` is 0 until the graph is initialized (undefined in JS). -/
structure GraphNode where
  designerId : String
  width : ℚ
  height : ℚ
  neightboors : List String
  radius : ℝ

/-- GraphEdge (GraphLayout.ts lines 26-28); the JS object references to the
two endpoint nodes are modelled by their `designerId` keys. -/
structure GraphEdge where
  source : String
  target : String
deriving DecidableEq

/-- GraphDefinition (GraphLayout.ts lines 40-69): nodes in insertion order
plus the edge list. -/
structure GraphDefinition where
  nodes : List GraphNode
  edges : List GraphEdge

/-- Key lookup in the node dictionary. -/
def GraphDefinition.findNode (g : GraphDefinition) (designerId : String) : Option GraphNode :=
  g.nodes.find? fun n => n.designerId == designerId

/-- addNode (GraphLayout.ts lines 44-46): insert a fresh node under the id;
re-adding an existing id overwrites the entry in place (JS dictionary
assignment keeps the original insertion position). -/
def GraphDefinition.addNode (g : GraphDefinition) (designerId : String)
    (width height : ℚ) : GraphDefinition :=
  if g.nodes.any fun n => n.designerId == designerId then
    { g with nodes := g.nodes.map fun n =>
        if n.designerId == designerId then ⟨designerId, width, height, [], 0⟩ else n }
  else
    { g with nodes := g.nodes ++ [⟨designerId, width, height, [], 0⟩] }

/-- addEdge (GraphLayout.ts lines 48-58): no-op unless both endpoints resolve
and no edge between the same pair (in either direction) already exists. -/
def GraphDefinition.addEdge (g : GraphDefinition) (sourceId targetId : String) :
    GraphDefinition :=
  if (g.findNode sourceId).isSome && (g.findNode targetId).isSome &&
      !(g.edges.any fun x =>
        (x.source == sourceId && x.target == targetId) ||
          (x.target == sourceId && x.source == targetId)) then
    { g with edges := g.edges ++ [⟨sourceId, targetId⟩] }
  else g

/-- Number of edges joining the unordered pair of ids in the edge list. -/
def GraphDefinition.pairCount (g : GraphDefinition) (a b : String) : ℕ :=
  g.edges.countP fun x =>
    (x.source == a && x.target == b) || (x.target == a && x.source == b)

/-- The adjacency list computed for one node inside `initialize`
(GraphLayout.ts lines 61-65): scan all edges, pushing the opposite endpoint
of every incident edge unless already present. -/
def nodeNeighbors (g : GraphDefinition) (n : GraphNode) : List String :=
  g.edges.foldl
    (fun acc e =>
      let acc1 := if e.source == n.designerId && !(acc.contains e.target) then
        acc ++ [e.target] else acc
      if e.target == n.designerId && !(acc1.contains e.source) then
        acc1 ++ [e.source] else acc1)
    []

/-- GraphNode.initialize (GraphLayout.ts lines 21-23) together with the
adjacency fill from GraphDefinition.initialize: populate the adjacency list
and compute the radius `sqrt(w*w/4 + h*h/4)`. -/
def GraphNode.initNode (g : GraphDefinition) (n : GraphNode) : GraphNode :=
  { n with
    neightboors := nodeNeighbors g n
    radius := Real.sqrt ((n.width : ℝ) * n.width / 4 + (n.height : ℝ) * n.height / 4) }

/-- GraphDefinition.initialize (GraphLayout.ts lines 60-68): every node gets
its adjacency list and radius; edges are unchanged. -/
def GraphDefinition.initGraph (g : GraphDefinition) : GraphDefinition :=
  { g with nodes := g.nodes.map (GraphNode.initNode g) }

/-- LayoutNode (GraphLayout.ts lines 71-105): a graph node placed at a center
position. The constructor-derived fields (left/top/right/bottom, position,
paddedRect) are deterministic functions of `node`, `x`, `y` and are modelled
as such. -/
structure LayoutNode where
  node : GraphNode
  x : ℝ
  y : ℝ

/-- Left bound: x minus half the width. -/
def LayoutNode.left (n : LayoutNode) : ℝ := n.x - (n.node.width : ℝ) / 2

/-- Top bound: y minus half the height. -/
def LayoutNode.top (n : LayoutNode) : ℝ := n.y - (n.node.height : ℝ) / 2

/-- Right bound: x plus half the width. -/
def LayoutNode.right (n : LayoutNode) : ℝ := n.x + (n.node.width : ℝ) / 2

/-- Bottom bound: y plus half the height. -/
def LayoutNode.bottom (n : LayoutNode) : ℝ := n.y + (n.node.height : ℝ) / 2

/-- Center position as a vector. -/
def LayoutNode.position (n : LayoutNode) : Vector2D := ⟨n.x, n.y⟩

/-- The unpadded bounding rectangle. -/
def LayoutNode.bounds (n : LayoutNode) : IBoxBounds :=
  ⟨n.left, n.top, n.right, n.bottom⟩

/-- The padded rectangle: bounds expanded by NODE_MARGIN on all sides. -/
def LayoutNode.paddedRect (n : LayoutNode) : IBoxBounds :=
  ⟨n.left - NODE_MARGIN, n.top - NODE_MARGIN, n.right + NODE_MARGIN, n.bottom + NODE_MARGIN⟩

/-- translate (GraphLayout.ts lines 94-96): a fresh LayoutNode for the same
graph node with the center shifted. -/
def LayoutNode.translate (n : LayoutNode) (dx dy : ℝ) : LayoutNode :=
  ⟨n.node, n.x + dx, n.y + dy⟩

/-- distanceTo (GraphLayout.ts lines 98-100): rectangle distance between the
two nodes' unpadded rectangles. -/
def LayoutNode.distanceTo (a b : LayoutNode) : ℝ :=
  rectangleDistance a.bounds b.bounds

/-- intersectArea (GraphLayout.ts lines 102-104): intersection area of the
two nodes' padded rectangles. -/
def LayoutNode.intersectArea (a b : LayoutNode) : ℝ :=
  rectangleIntersectArea a.paddedRect b.paddedRect

/-- LayoutEdge (GraphLayout.ts lines 175-180): a graph edge with the two
placed endpoints and a cached length. -/
structure LayoutEdge where
  edge : GraphEdge
  length : ℝ
  source : LayoutNode
  target : LayoutNode

/-- GraphLayout (GraphLayout.ts lines 194-198): a placement of every graph
node plus the derived layout edges. -/
structure GraphLayout where
  graph : GraphDefinition
  nodes : List LayoutNode
  edges : List LayoutEdge

/-- Lookup of a placed node by its graph node id. -/
def GraphLayout.findLayoutNode (l : GraphLayout) (designerId : String) : Option LayoutNode :=
  l.nodes.find? fun n => n.node.designerId == designerId

/-- Placeholder for a missing dictionary entry: the JS source would crash
dereferencing `undefined` in `fillEdges`; this default is never reached when
every graph edge endpoint is a placed node (the wellformedness the claims'
theorems assume where it matters). -/
def junkLayoutNode (designerId : String) : LayoutNode :=
  ⟨⟨designerId, 0, 0, [], 0⟩, 0, 0⟩

/-- fillEdges (GraphLayout.ts lines 223-234): rebuild the layout edge list
from the graph's edge list, caching each edge's current rectangle distance
between its placed endpoints as `length`. -/
def GraphLayout.fillEdges (l : GraphLayout) : GraphLayout :=
  { l with edges := l.graph.edges.map fun e =>
      let n1 := (l.findLayoutNode e.source).getD (junkLayoutNode e.source)
      let n2 := (l.findLayoutNode e.target).getD (junkLayoutNode e.target)
      ⟨e, n1.distanceTo n2, n1, n2⟩ }

/-- The lodash `_.sortBy(nodes, [neightboors.length, height, designerId])`
comparison from addNodeNeighboors (GraphLayout.ts line 183): ascending
lexicographic comparison of the three sort keys. -/
def nodeSortLe (a b : GraphNode) : Bool :=
  if a.neightboors.length == b.neightboors.length then
    if a.height == b.height then decide (a.designerId ≤ b.designerId)
    else decide (a.height < b.height)
  else decide (a.neightboors.length < b.neightboors.length)

/-- Stable ascending sort by the three keys (lodash `_.sortBy` is a stable
sort, as is `List.mergeSort`). -/
def sortNodes (ns : List GraphNode) : List GraphNode := ns.mergeSort nodeSortLe

/-- The neighbor objects of a node, resolved from its stored neighbor ids in
the graph (the JS source stores the object references directly). -/
def neighborNodes (g : GraphDefinition) (n : GraphNode) : List GraphNode :=
  n.neightboors.filterMap g.findNode

/-- addNodeNeighboors (GraphLayout.ts lines 182-192): depth-first,
low-degree-first traversal appending unvisited nodes (`res`, with the visited
id set `added`), recursing into each newly added node's sorted neighbors.
The JS recursion terminates because the visited set grows; here the nesting
depth is paid for by `fuel`, and `circleSortedNodes` supplies enough fuel
that the 0 case is never reached (proved below). -/
def annGo (g : GraphDefinition) (fuel : ℕ) (ns : List GraphNode)
    (res : List GraphNode) (added : List String) : List GraphNode × List String :=
  match ns with
  | [] => (res, added)
  | n :: rest =>
    if added.contains n.designerId then annGo g fuel rest res added
    else
      match fuel with
      | 0 => (res, added)
      | fuel' + 1 =>
        let p := annGo g fuel' (sortNodes (neighborNodes g n))
          (res ++ [n]) (added ++ [n.designerId])
        annGo g (fuel' + 1) rest p.1 p.2
termination_by (fuel, ns.length)

/-- The circle placement order of createCircle (GraphLayout.ts line 207):
the traversal seeded with all graph nodes, sorted at entry exactly as
addNodeNeighboors sorts its argument before iterating. -/
def circleSortedNodes (g : GraphDefinition) : List GraphNode :=
  (annGo g (g.nodes.length + 1) (sortNodes g.nodes) [] []).1

/-- The placement loop of createCircle (GraphLayout.ts lines 212-217): place
each node at (sin(angle)*radius, cos(angle)*radius), advancing the angle by
`dangle` per node. -/
def placeCircle (radius dangle : ℝ) : List GraphNode → ℝ → List LayoutNode
  | [], _ => []
  | n :: rest, angle =>
    ⟨n, Real.sin angle * radius, Real.cos angle * radius⟩ ::
      placeCircle radius dangle rest (angle + dangle)

/-- createCircle (GraphLayout.ts lines 200-221): empty graph gives the empty
layout; otherwise order the nodes, compute the circle radius
`(n*R)/(2*pi) + R` from the maximum node radius R, place the nodes around
the circle at angle increments of `2*pi/n`, and fill the edges. -/
def GraphLayout.createCircle (g : GraphDefinition) : GraphLayout :=
  if g.nodes.isEmpty then ⟨g, [], []⟩
  else
    let csn := circleSortedNodes g
    let nodeRadius := ((csn.map GraphNode.radius).maximum).unbot' 0
    let nodeCount : ℕ := csn.length
    let radius := (nodeCount : ℝ) * nodeRadius / (2 * Real.pi) + nodeRadius
    let dangle := 2 * Real.pi / (csn.length : ℝ)
    GraphLayout.fillEdges ⟨g, placeCircle radius dangle csn 0, []⟩

/-- changePositions (GraphLayout.ts lines 236-241): a brand-new layout over
the same graph with every placed node mapped through `nodeFunc` and the edges
rebuilt from scratch (the prior edge list is never reused). -/
def GraphLayout.changePositions (l : GraphLayout) (nodeFunc : LayoutNode → LayoutNode) :
    GraphLayout :=
  GraphLayout.fillEdges ⟨l.graph, l.nodes.map nodeFunc, []⟩

/-- fixViewBox (GraphLayout.ts lines 243-248): translate all nodes so the
minimum left/top sits at (50, 50). -/
def GraphLayout.fixViewBox (l : GraphLayout) : GraphLayout :=
  let minX := ((l.nodes.map LayoutNode.left).minimum).untop' 0
  let minY := ((l.nodes.map LayoutNode.top).minimum).untop' 0
  l.changePositions fun n => n.translate (-minX + 50) (-minY + 50)

/-- The per-step force accumulator (ForceAlgorithmStep.nodeForces): a JS
dictionary with absent keys, modelled as a total function defaulting to the
zero vector. -/
def Forces := String → Vector2D

/-- The per-application clamp inside applyForce (GraphLayout.ts lines
116-119): a force whose magnitude exceeds MAX_FORCE_SIZE is rescaled to that
magnitude, keeping its direction. -/
def clampForce (force : Vector2D) : Vector2D :=
  if force.magnitude > MAX_FORCE_SIZE then force.normalise.multiply MAX_FORCE_SIZE
  else force

/-- applyForce (GraphLayout.ts lines 111-126): clamp the individual force,
then add it into the accumulator entry of the node's id. -/
def applyForce (fs : Forces) (node : LayoutNode) (force : Vector2D) : Forces :=
  fun i => if i = node.node.designerId then (fs i).add (clampForce force) else fs i

/-- applyHooksLaw (GraphLayout.ts lines 147-157): per layout edge, a spring
force of size `(SPRING_LENGTH - edge.length) * 0.5` along the source-to-target
direction, applied positively to the target and negatively to the source. -/
def applyHooksLaw (l : GraphLayout) (fs : Forces) : Forces :=
  l.edges.foldl
    (fun fs edge =>
      let d := edge.target.position.subtract edge.source.position
      let displacement := SPRING_LENGTH - edge.length
      let direction := d.normalise
      let fs1 := applyForce fs edge.source (direction.multiply (displacement * (-0.5)))
      applyForce fs1 edge.target (direction.multiply (displacement * 0.5)))
    fs

/-- One ordered-pair iteration of applyCoulombsLaw (GraphLayout.ts lines
131-143): skip identical ids; otherwise apply `+0.5*REPULSION/distance^2`
along the n2-to-n1 direction to n1 and the negated magnitude to n2. -/
def coulombPair (n1 n2 : LayoutNode) (fs : Forces) : Forces :=
  if n1.node.designerId = n2.node.designerId then fs
  else
    let d := n1.position.subtract n2.position
    let direction := d.normalise
    let distance := n1.distanceTo n2 + MIN_NODE_DISTANCE
    let fs1 := applyForce fs n1
      (direction.multiply (0.5 * REPULSION / (distance * distance)))
    applyForce fs1 n2
      (direction.multiply (-0.5 * REPULSION / (distance * distance)))

/-- applyCoulombsLaw (GraphLayout.ts lines 128-145): the ordered double loop
over all placed nodes, feeding every ordered pair through coulombPair. -/
def applyCoulombsLaw (l : GraphLayout) (fs : Forces) : Forces :=
  l.nodes.foldl
    (fun fs n1 => l.nodes.foldl (fun fs n2 => coulombPair n1 n2 fs) fs)
    fs

/-- The force coulombPair hands to applyForce for the first node of the
ordered pair. -/
def coulombForward (n1 n2 : LayoutNode) : Vector2D :=
  ((n1.position.subtract n2.position).normalise).multiply
    (0.5 * REPULSION /
      ((n1.distanceTo n2 + MIN_NODE_DISTANCE) * (n1.distanceTo n2 + MIN_NODE_DISTANCE)))

/-- The force coulombPair hands to applyForce for the second node of the
ordered pair. -/
def coulombBackward (n1 n2 : LayoutNode) : Vector2D :=
  ((n1.position.subtract n2.position).normalise).multiply
    (-0.5 * REPULSION /
      ((n1.distanceTo n2 + MIN_NODE_DISTANCE) * (n1.distanceTo n2 + MIN_NODE_DISTANCE)))

/-- What one coulombPair iteration adds to the accumulator entry of id `a`. -/
def pairContrib (a : String) (n1 n2 : LayoutNode) : Vector2D :=
  if n1.node.designerId = n2.node.designerId then Vector2D.zero
  else
    (if a = n1.node.designerId then clampForce (coulombForward n1 n2)
      else Vector2D.zero).add
      (if a = n2.node.designerId then clampForce (coulombBackward n1 n2)
        else Vector2D.zero)

/-- The claim's per-unordered-pair total: twice the single-ordering
repulsion magnitude `0.5*REPULSION/(d + MIN_NODE_DISTANCE)^2`, directed away
from the other node. -/
def coulombRepulsion (n1 n2 : LayoutNode) : Vector2D :=
  ((n1.position.subtract n2.position).normalise).multiply
    (2 * (0.5 * REPULSION / ((n1.distanceTo n2 + MIN_NODE_DISTANCE) ^ 2)))

/-- applyGravity (GraphLayout.ts lines 159-164): for every node, a pull of
`position * -1 * GRAVITY` toward the origin. -/
def applyGravity (l : GraphLayout) (fs : Forces) : Forces :=
  l.nodes.foldl
    (fun fs node =>
      let direction := node.position.multiply (-1)
      applyForce fs node (direction.multiply GRAVITY))
    fs

/-- moveNode (GraphLayout.ts lines 166-172): translate a node by its
accumulated force (a node with no accumulator entry is returned unchanged in
JS; in the total-function model its entry is the zero vector and the
translation by zero yields the same placed node). -/
def moveNode (fs : Forces) (node : LayoutNode) : LayoutNode :=
  node.translate (fs node.node.designerId).x (fs node.node.designerId).y

/-- The accumulated forces of one springyStep (GraphLayout.ts lines 250-256):
Hooke, then Coulomb, then gravity, starting from an empty accumulator. -/
def springyStepForces (l : GraphLayout) : Forces :=
  applyGravity l (applyCoulombsLaw l (applyHooksLaw l fun _ => Vector2D.zero))

/-- springyStep (GraphLayout.ts lines 250-256): apply all forces and move
every node by its accumulated force, producing a fresh layout. -/
def GraphLayout.springyStep (l : GraphLayout) : GraphLayout :=
  l.changePositions (moveNode (springyStepForces l))

/-- The relaxation loop: iterate springyStep. -/
def springyAlgAux : ℕ → GraphLayout → GraphLayout
  | 0, l => l
  | n + 1, l => springyAlgAux n l.springyStep

/-- springyAlg (GraphLayout.ts lines 258-264): SPRINGY_STEPS sequential
relaxation steps. -/
def GraphLayout.springyAlg (l : GraphLayout) : GraphLayout :=
  springyAlgAux SPRINGY_STEPS l

/-- score (GraphLayout.ts lines 266-287): summed padded-rectangle
intersection area over all ordered pairs of distinct nodes, plus the width
and height of the overall bounding box. On an empty node list the JS min/max
are `undefined` (score NaN); the 0 defaults here are junk never relied on. -/
def GraphLayout.score (l : GraphLayout) : ℝ :=
  let overlap := l.nodes.foldl
    (fun acc n1 =>
      l.nodes.foldl
        (fun acc n2 =>
          if n1.node.designerId = n2.node.designerId then acc
          else acc + n1.intersectArea n2)
        acc)
    0
  let minX := ((l.nodes.map LayoutNode.left).minimum).untop' 0
  let minY := ((l.nodes.map LayoutNode.top).minimum).untop' 0
  let maxX := ((l.nodes.map LayoutNode.right).maximum).unbot' 0
  let maxY := ((l.nodes.map LayoutNode.bottom).maximum).unbot' 0
  overlap + (maxX - minX) + (maxY - minY)

/-- tryMoveNode (GraphLayout.ts lines 289-301): the 8 candidate layouts
translating this single node by (±MOVE_STEP, 0), (0, ±MOVE_STEP) and the four
(±MOVE_BIG_STEP, ±MOVE_BIG_STEP) diagonals (JS object identity `x == node`
is id equality here). -/
def GraphLayout.tryMoveNode (l : GraphLayout) (node : LayoutNode) : List GraphLayout :=
  [l.changePositions fun x =>
    if x.node.designerId = node.node.designerId then node.translate MOVE_STEP 0 else x,
   l.changePositions fun x =>
    if x.node.designerId = node.node.designerId then node.translate (-MOVE_STEP) 0 else x,
   l.changePositions fun x =>
    if x.node.designerId = node.node.designerId then node.translate 0 MOVE_STEP else x,
   l.changePositions fun x =>
    if x.node.designerId = node.node.designerId then node.translate 0 (-MOVE_STEP) else x,
   l.changePositions fun x =>
    if x.node.designerId = node.node.designerId then
      node.translate MOVE_BIG_STEP MOVE_BIG_STEP else x,
   l.changePositions fun x =>
    if x.node.designerId = node.node.designerId then
      node.translate MOVE_BIG_STEP (-MOVE_BIG_STEP) else x,
   l.changePositions fun x =>
    if x.node.designerId = node.node.designerId then
      node.translate (-MOVE_BIG_STEP) MOVE_BIG_STEP else x,
   l.changePositions fun x =>
    if x.node.designerId = node.node.designerId then
      node.translate (-MOVE_BIG_STEP) (-MOVE_BIG_STEP) else x]

/-- The best-so-far update inside tryMoveElement (GraphLayout.ts lines
307-315): keep a candidate iff there is no best yet or it scores strictly
lower. -/
def pickBetter (st : Option (GraphLayout × ℝ)) (item : GraphLayout) :
    Option (GraphLayout × ℝ) :=
  match st with
  | none => some (item, item.score)
  | some (res, resScore) =>
    if item.score < resScore then some (item, item.score) else some (res, resScore)

/-- tryMoveElement (GraphLayout.ts lines 303-318): scan all candidates of all
nodes for the globally lowest score; `none` models the JS `null` result on a
layout with no nodes. -/
def GraphLayout.tryMoveElement (l : GraphLayout) : Option GraphLayout :=
  (l.nodes.foldl (fun st node => (l.tryMoveNode node).foldl pickBetter st) none).map
    Prod.fst

/-- The refinement loop of doMoveSteps (GraphLayout.ts lines 320-332) with the
remaining step count as fuel: take the best single-node move; if its score
improvement over the current score is below MINIMAL_SCORE_BENEFIT, return the
pre-step layout; `none` models the JS crash (`res.score()` on `null`) when
tryMoveElement finds no candidate. -/
def doMoveStepsAux : GraphLayout → ℝ → ℕ → Option GraphLayout
  | res, _, 0 => some res
  | res, score, n + 1 =>
    match res.tryMoveElement with
    | none => none
    | some next =>
      if score - next.score < MINIMAL_SCORE_BENEFIT then some res
      else doMoveStepsAux next next.score n

/-- doMoveSteps (GraphLayout.ts lines 320-332): up to MOVE_STEP_COUNT
refinement steps starting from the layout's current score. -/
def GraphLayout.doMoveSteps (l : GraphLayout) : Option GraphLayout :=
  doMoveStepsAux l l.score MOVE_STEP_COUNT

/-- Sample node used by concrete witnesses. -/
def sampleNodeA : GraphNode := ⟨"a", 100, 100, [], 0⟩

/-- Sample node used by concrete witnesses. -/
def sampleNodeB : GraphNode := ⟨"b", 100, 100, [], 0⟩

/-- Sample two-node graph with no edges, used by concrete witnesses. -/
def sampleGraphAB : GraphDefinition := ⟨[sampleNodeA, sampleNodeB], []⟩

/-- Euclidean distance between two center positions; this is the spec's
"Euclidean distance between the center positions" notion, written out for
comparison against the cached edge lengths the code computes. -/
def centerDistance (a b : LayoutNode) : ℝ :=
  Real.sqrt ((a.x - b.x) * (a.x - b.x) + (a.y - b.y) * (a.y - b.y))

/-- Sample placed node at the origin, used by concrete witnesses. -/
def lnA : LayoutNode := ⟨sampleNodeA, 0, 0⟩

/-- Sample placed node overlapping lnA, used by concrete witnesses. -/
def lnB10 : LayoutNode := ⟨sampleNodeB, 10, 0⟩

/-- Sample placed node disjoint from lnA, used by concrete witnesses. -/
def lnB200 : LayoutNode := ⟨sampleNodeB, 200, 0⟩

/-- Sample layout with two overlapping placed nodes and no edges. -/
def sampleOverlapLayout : GraphLayout := ⟨sampleGraphAB, [lnA, lnB10], []⟩

/-- Sample two-node graph with one edge a-b. -/
def sampleGraphEdge : GraphDefinition := ⟨[sampleNodeA, sampleNodeB], [⟨"a", "b"⟩]⟩

/-- Sample layout over sampleGraphEdge with rational positions. -/
def sampleMoveLayout : GraphLayout := ⟨sampleGraphEdge, [lnA, lnB200], []⟩

/-- Sample single-node graph and layout. -/
def sampleGraphA : GraphDefinition := ⟨[sampleNodeA], []⟩

/-- Sample single-node layout. -/
def sampleSingleLayout : GraphLayout := ⟨sampleGraphA, [lnA], []⟩

/-- The empty graph. -/
def emptyGraph : GraphDefinition := ⟨[], []⟩

/-- Zero-size node (width and height 0), used by the C6 counterexample. -/
def zeroNodeA : GraphNode := ⟨"a", 0, 0, [], 0⟩

/-- Zero-size node (width and height 0), used by the C6 counterexample. -/
def zeroNodeB : GraphNode := ⟨"b", 0, 0, [], 0⟩

/-- Two zero-size nodes, no edges: all circle positions collapse to the
origin. -/
def zeroGraph : GraphDefinition := ⟨[zeroNodeA, zeroNodeB], []⟩

/-- The node function of the first discrete-move candidate for node a:
translate the node with id a by (MOVE_STEP, 0), keep the others. -/
def moveA20 : LayoutNode → LayoutNode := fun x =>
  if x.node.designerId = lnA.node.designerId then lnA.translate MOVE_STEP 0 else x

/-- The claim's R: the maximum node radius over the graph's nodes (undefined
on an empty graph; junk default 0, exactly like the code's lodash max). -/
def maxNodeRadius (g : GraphDefinition) : ℝ :=
  ((g.nodes.map GraphNode.radius).maximum).unbot' 0

/-- The claim's circle radius r = (N*R)/(2*pi) + R over the graph's nodes. -/
def circleRadius (g : GraphDefinition) : ℝ :=
  (g.nodes.length : ℝ) * maxNodeRadius g / (2 * Real.pi) + maxNodeRadius g

/-- The node ids of a layout, in placement order. -/
def layoutIds (l : GraphLayout) : List String :=
  l.nodes.map fun ln => ln.node.designerId

/-- The node ids of a graph, in insertion order. -/
def graphIds (g : GraphDefinition) : List String :=
  g.nodes.map GraphNode.designerId

instance : Inhabited GraphLayout := ⟨⟨⟨[], []⟩, [], []⟩⟩

instance : Inhabited LayoutEdge := ⟨⟨⟨"", ""⟩, 0, junkLayoutNode "", junkLayoutNode ""⟩⟩

end

section AddEdgeLemmas

open GraphLayoutSpec

/-- The duplicate-edge predicates scanned by addEdge for (a,b) and for (b,a)
agree on every edge. -/
theorem edgePred_symm (a b : String) (x : GraphEdge) :
    ((x.source == b && x.target == a) || (x.target == b && x.source == a)) =
      ((x.source == a && x.target == b) || (x.target == a && x.source == b)) := by
  rcases x with ⟨s, t⟩
  simp only
  rw [Bool.or_comm]
  rw [Bool.and_comm (s == b) (t == a), Bool.and_comm (t == b) (s == a)]

/-- addEdge characterized through pairCount: it appends exactly when both
endpoints resolve and no edge joins the pair yet. -/
theorem addEdge_eq (g : GraphDefinition) (s t : String) :
    g.addEdge s t =
      if (g.findNode s).isSome = true ∧ (g.findNode t).isSome = true ∧
          g.pairCount s t = 0 then
        { g with edges := g.edges ++ [⟨s, t⟩] }
      else g := by
  unfold GraphDefinition.addEdge GraphDefinition.pairCount
  by_cases hc : ((g.findNode s).isSome && (g.findNode t).isSome &&
      !(g.edges.any fun x =>
        (x.source == s && x.target == t) || (x.target == s && x.source == t))) = true
  · rw [if_pos hc]
    simp only [Bool.and_eq_true, Bool.not_eq_true', List.any_eq_false] at hc
    obtain ⟨⟨hs, ht⟩, ha⟩ := hc
    rw [if_pos ⟨hs, ht, List.countP_eq_zero.2 fun x hx => by simp [ha x hx]⟩]
  · rw [if_neg hc]
    rw [if_neg ?_]
    rintro ⟨hs, ht, h0⟩
    apply hc
    simp only [Bool.and_eq_true, Bool.not_eq_true', List.any_eq_false]
    exact ⟨⟨hs, ht⟩, fun x hx => by
      have := List.countP_eq_zero.1 h0 x hx
      simpa using this⟩

/-- addEdge never changes the node dictionary. -/
theorem addEdge_nodes (g : GraphDefinition) (s t : String) :
    (g.addEdge s t).nodes = g.nodes := by
  rw [addEdge_eq]; split <;> rfl

/-- addEdge never changes node lookups. -/
theorem addEdge_findNode (g : GraphDefinition) (s t i : String) :
    (g.addEdge s t).findNode i = g.findNode i := by
  unfold GraphDefinition.findNode
  rw [addEdge_nodes]

/-- pairCount is symmetric in the two ids. -/
theorem pairCount_symm (g : GraphDefinition) (a b : String) :
    g.pairCount b a = g.pairCount a b := by
  unfold GraphDefinition.pairCount
  exact List.countP_congr fun x _ => by rw [edgePred_symm a b x]

/-- pairCount after addEdge of the same pair. -/
theorem pairCount_addEdge_self (g : GraphDefinition) (a b : String)
    (ha : (g.findNode a).isSome = true) (hb : (g.findNode b).isSome = true) :
    (g.addEdge a b).pairCount a b = if g.pairCount a b = 0 then 1 else g.pairCount a b := by
  rw [addEdge_eq]
  by_cases h0 : g.pairCount a b = 0
  · rw [if_pos ⟨ha, hb, h0⟩, if_pos h0]
    show List.countP _ (g.edges ++ [⟨a, b⟩]) = 1
    rw [List.countP_append]
    have : g.pairCount a b = 0 := h0
    unfold GraphDefinition.pairCount at this
    rw [this]
    simp [List.countP_cons]
  · rw [if_neg (by simp [h0]), if_neg h0]

end AddEdgeLemmas

section ClaimC7C9C10

open GraphLayoutSpec

/-- C7: for every graph and distinct known node ids a and b (where the graph
does not already hold several edges between them, an unreachable state),
calling addEdge twice, or once per direction, leaves exactly one edge between
a and b; and calling addEdge with an unknown id leaves the edge list
unchanged. -/
theorem claim_C7_addEdge_dedup (g : GraphDefinition) (a b s t : String)
    (_hab : a ≠ b)
    (ha : (g.findNode a).isSome = true) (hb : (g.findNode b).isSome = true)
    (hcount : g.pairCount a b ≤ 1)
    (hst : (g.findNode s).isSome = false ∨ (g.findNode t).isSome = false) :
    ((g.addEdge a b).addEdge a b).pairCount a b = 1 ∧
      ((g.addEdge a b).addEdge b a).pairCount a b = 1 ∧
      (g.addEdge s t).edges = g.edges := by
  have ha1 : ((g.addEdge a b).findNode a).isSome = true := by
    rw [addEdge_findNode]; exact ha
  have hb1 : ((g.addEdge a b).findNode b).isSome = true := by
    rw [addEdge_findNode]; exact hb
  have hone : (g.addEdge a b).pairCount a b = 1 := by
    rw [pairCount_addEdge_self g a b ha hb]
    by_cases h0 : g.pairCount a b = 0
    · rw [if_pos h0]
    · rw [if_neg h0]; omega
  refine ⟨?_, ?_, ?_⟩
  · rw [pairCount_addEdge_self _ a b ha1 hb1, if_neg (by omega)]
    exact hone
  · rw [addEdge_eq ((g.addEdge a b)) b a,
      if_neg (by rw [pairCount_symm]; rintro ⟨_, _, h⟩; omega)]
    exact hone
  · rw [addEdge_eq]
    rw [if_neg ?_]
    rintro ⟨hs1, ht1, _⟩
    rcases hst with h | h
    · rw [hs1] at h; cases h
    · rw [ht1] at h; cases h

/-- C7 witness: the theorem applied to the concrete two-node graph. -/
theorem claim_C7_witness :
    ((sampleGraphAB.addEdge "a" "b").addEdge "a" "b").pairCount "a" "b" = 1 ∧
      ((sampleGraphAB.addEdge "a" "b").addEdge "b" "a").pairCount "a" "b" = 1 ∧
      (sampleGraphAB.addEdge "c" "a").edges = sampleGraphAB.edges :=
  claim_C7_addEdge_dedup sampleGraphAB "a" "b" "c" "a" (by decide) (by decide)
    (by decide) (by decide) (Or.inl (by decide))

/-- C9: after the graph is initialized, every node's radius is the
half-diagonal of its bounding box, sqrt(w^2 + h^2) / 2. -/
theorem claim_C9_radius (g : GraphDefinition) (n : GraphNode)
    (hn : n ∈ (GraphDefinition.initGraph g).nodes) :
    n.radius = Real.sqrt ((n.width : ℝ) ^ 2 + (n.height : ℝ) ^ 2) / 2 := by
  unfold GraphDefinition.initGraph at hn
  simp only [List.mem_map] at hn
  obtain ⟨m, _, rfl⟩ := hn
  show Real.sqrt ((m.width : ℝ) * m.width / 4 + (m.height : ℝ) * m.height / 4) = _
  have harg : (m.width : ℝ) * m.width / 4 + (m.height : ℝ) * m.height / 4 =
      ((m.width : ℝ) ^ 2 + (m.height : ℝ) ^ 2) / 4 := by ring
  have h4 : Real.sqrt 4 = 2 := by
    rw [show (4 : ℝ) = 2 ^ 2 by norm_num, Real.sqrt_sq (by norm_num : (0:ℝ) ≤ 2)]
  rw [harg, Real.sqrt_div (by positivity) 4, h4]
  rfl

/-- C9 witness: the theorem applied to a concrete initialized node. -/
theorem claim_C9_witness :
    (GraphNode.initNode sampleGraphAB sampleNodeA).radius =
      Real.sqrt (((GraphNode.initNode sampleGraphAB sampleNodeA).width : ℝ) ^ 2 +
        ((GraphNode.initNode sampleGraphAB sampleNodeA).height : ℝ) ^ 2) / 2 :=
  claim_C9_radius sampleGraphAB (GraphNode.initNode sampleGraphAB sampleNodeA)
    (by simp [GraphDefinition.initGraph, sampleGraphAB])

/-- C10: addEdge does not reject self-loops: for a known id with no existing
self-edge, addEdge(a,a) appends the self-edge, and only a second addEdge(a,a)
is a no-op via the duplicate check. -/
theorem claim_C10_self_edge (g : GraphDefinition) (a : String)
    (ha : (g.findNode a).isSome = true)
    (hno : g.pairCount a a = 0) :
    (g.addEdge a a).edges = g.edges ++ [⟨a, a⟩] ∧
      ((g.addEdge a a).addEdge a a).edges = (g.addEdge a a).edges := by
  have h1 : g.addEdge a a = { g with edges := g.edges ++ [⟨a, a⟩] } := by
    rw [addEdge_eq, if_pos ⟨ha, ha, hno⟩]
  have hone : (g.addEdge a a).pairCount a a = 1 := by
    rw [pairCount_addEdge_self g a a ha ha, if_pos hno]
  refine ⟨by rw [h1], ?_⟩
  rw [addEdge_eq ((g.addEdge a a)) a a, if_neg ?_]
  rintro ⟨_, _, h⟩
  omega

/-- C10 witness: the theorem applied to the concrete two-node graph. -/
theorem claim_C10_witness :
    (sampleGraphAB.addEdge "a" "a").edges = sampleGraphAB.edges ++ [⟨"a", "a"⟩] ∧
      ((sampleGraphAB.addEdge "a" "a").addEdge "a" "a").edges =
        (sampleGraphAB.addEdge "a" "a").edges :=
  claim_C10_self_edge sampleGraphAB "a" (by decide) (by decide)

end ClaimC7C9C10

section VectorLemmas

open GraphLayoutSpec

/-- Magnitudes are square roots, hence nonnegative. -/
theorem magnitude_nonneg (v : Vector2D) : 0 ≤ v.magnitude :=
  Real.sqrt_nonneg _

/-- The square of the magnitude is the sum of the squared components. -/
theorem magnitude_mul_self (v : Vector2D) :
    v.magnitude * v.magnitude = v.x * v.x + v.y * v.y :=
  Real.mul_self_sqrt (add_nonneg (mul_self_nonneg _) (mul_self_nonneg _))

/-- Magnitude scales with the absolute value of a scalar factor. -/
theorem magnitude_multiply (v : Vector2D) (s : ℝ) :
    (v.multiply s).magnitude = |s| * v.magnitude := by
  unfold Vector2D.multiply Vector2D.magnitude
  have h : v.x * s * (v.x * s) + v.y * s * (v.y * s) =
      s * s * (v.x * v.x + v.y * v.y) := by ring
  rw [h, Real.sqrt_mul (mul_self_nonneg s), Real.sqrt_mul_self_eq_abs]

/-- A vector of zero magnitude normalises to the zero vector. -/
theorem normalise_of_magnitude_zero (v : Vector2D) (h : v.magnitude = 0) :
    v.normalise = ⟨0, 0⟩ := by
  unfold Vector2D.normalise Vector2D.divide
  rw [h, div_zero, div_zero]

/-- A vector of nonzero magnitude normalises to a unit vector. -/
theorem magnitude_normalise (v : Vector2D) (h : v.magnitude ≠ 0) :
    v.normalise.magnitude = 1 := by
  have hmm := magnitude_mul_self v
  show Real.sqrt (v.x / v.magnitude * (v.x / v.magnitude) +
    v.y / v.magnitude * (v.y / v.magnitude)) = 1
  have harg : v.x / v.magnitude * (v.x / v.magnitude) +
      v.y / v.magnitude * (v.y / v.magnitude) =
      (v.x * v.x + v.y * v.y) / (v.magnitude * v.magnitude) := by ring
  rw [harg, ← hmm, div_self (mul_ne_zero h h), Real.sqrt_one]

/-- Normalised vectors never have magnitude above 1. -/
theorem magnitude_normalise_le_one (v : Vector2D) : v.normalise.magnitude ≤ 1 := by
  rcases eq_or_ne v.magnitude 0 with h | h
  · rw [normalise_of_magnitude_zero v h]
    show Real.sqrt ((0:ℝ) * 0 + 0 * 0) ≤ 1
    rw [show ((0:ℝ) * 0 + 0 * 0) = 0 by ring, Real.sqrt_zero]
    norm_num
  · rw [magnitude_normalise v h]

/-- The clamp never lets a force through with magnitude above the cap. -/
theorem clampForce_magnitude_le (force : Vector2D) :
    (clampForce force).magnitude ≤ MAX_FORCE_SIZE := by
  unfold clampForce
  split_ifs with h
  · rw [magnitude_multiply]
    have h1 := magnitude_normalise_le_one force
    have h0 := magnitude_nonneg force.normalise
    have : |MAX_FORCE_SIZE| = MAX_FORCE_SIZE := abs_of_nonneg (by norm_num [MAX_FORCE_SIZE])
    rw [this]
    nlinarith [show (0:ℝ) < MAX_FORCE_SIZE by norm_num [MAX_FORCE_SIZE]]
  · exact not_lt.1 h

/-- The clamp preserves direction: its output is a positive scalar multiple
of its input. -/
theorem clampForce_eq_multiply (force : Vector2D) :
    ∃ c : ℝ, 0 < c ∧ clampForce force = force.multiply c := by
  unfold clampForce
  split_ifs with h
  · have hpos : (0:ℝ) < force.magnitude := by
      have : (0:ℝ) < MAX_FORCE_SIZE := by norm_num [MAX_FORCE_SIZE]
      linarith
    refine ⟨MAX_FORCE_SIZE / force.magnitude, div_pos (by norm_num [MAX_FORCE_SIZE]) hpos, ?_⟩
    unfold Vector2D.normalise Vector2D.divide Vector2D.multiply
    simp only [Vector2D.mk.injEq]
    constructor <;> ring
  · exact ⟨1, one_pos, by unfold Vector2D.multiply; simp⟩

/-- A force already within the cap passes through the clamp unchanged. -/
theorem clampForce_of_le (force : Vector2D) (h : force.magnitude ≤ MAX_FORCE_SIZE) :
    clampForce force = force :=
  if_neg (not_lt.2 h)

/-- applyForce evaluated pointwise. -/
theorem applyForce_apply (fs : Forces) (node : LayoutNode) (force : Vector2D) (i : String) :
    applyForce fs node force i =
      if i = node.node.designerId then (fs i).add (clampForce force) else fs i :=
  rfl

end VectorLemmas

section ClaimC4

open GraphLayoutSpec

/-- Rectangle distance between the two overlapping sample nodes is zero. -/
theorem sample_overlap_distanceTo : lnA.distanceTo lnB10 = 0 := by
  unfold LayoutNode.distanceTo rectangleDistance LayoutNode.bounds LayoutNode.left
    LayoutNode.right LayoutNode.top LayoutNode.bottom lnA lnB10 sampleNodeA sampleNodeB
  norm_num [Real.sqrt_zero]

/-- Rectangle distance in the reverse order is also zero. -/
theorem sample_overlap_distanceTo_rev : lnB10.distanceTo lnA = 0 := by
  unfold LayoutNode.distanceTo rectangleDistance LayoutNode.bounds LayoutNode.left
    LayoutNode.right LayoutNode.top LayoutNode.bottom lnA lnB10 sampleNodeA sampleNodeB
  norm_num [Real.sqrt_zero]

/-- Magnitude of the concrete vector (-100, 0). -/
theorem magnitude_neg100 : (Vector2D.mk (-100 : ℝ) 0).magnitude = 100 := by
  unfold Vector2D.magnitude
  rw [show ((-100 : ℝ) * (-100) + 0 * 0) = 100 * 100 by norm_num,
    Real.sqrt_mul_self (by norm_num)]

/-- Magnitude of the concrete vector (100, 0). -/
theorem magnitude_pos100 : (Vector2D.mk (100 : ℝ) 0).magnitude = 100 := by
  unfold Vector2D.magnitude
  rw [show ((100 : ℝ) * 100 + 0 * 0) = 100 * 100 by norm_num,
    Real.sqrt_mul_self (by norm_num)]

/-- Magnitude of the zero vector. -/
theorem magnitude_zero_vec : (Vector2D.mk (0 : ℝ) 0).magnitude = 0 := by
  unfold Vector2D.magnitude
  norm_num [Real.sqrt_zero]

/-- The accumulated force on node a of the overlapping sample layout after
one full force pass: the two Coulomb orderings each contribute (-100, 0) and
nothing else touches it, totalling (-200, 0). -/
theorem springyForces_overlap_eval :
    springyStepForces sampleOverlapLayout "a" = ⟨-200, 0⟩ := by
  have hhooks : applyHooksLaw sampleOverlapLayout (fun _ => Vector2D.zero) =
      (fun _ => Vector2D.zero) := rfl
  have hd1 : lnA.position.subtract lnB10.position = ⟨-10, 0⟩ := by
    unfold lnA lnB10 LayoutNode.position Vector2D.subtract
    norm_num
  have hd2 : lnB10.position.subtract lnA.position = ⟨10, 0⟩ := by
    unfold lnA lnB10 LayoutNode.position Vector2D.subtract
    norm_num
  have hn1 : (Vector2D.mk (-10 : ℝ) 0).normalise = ⟨-1, 0⟩ := by
    unfold Vector2D.normalise Vector2D.divide Vector2D.magnitude
    rw [show ((-10 : ℝ) * (-10) + 0 * 0) = 10 * 10 by norm_num,
      Real.sqrt_mul_self (by norm_num)]
    norm_num
  have hn2 : (Vector2D.mk (10 : ℝ) 0).normalise = ⟨1, 0⟩ := by
    unfold Vector2D.normalise Vector2D.divide Vector2D.magnitude
    rw [show ((10 : ℝ) * 10 + 0 * 0) = 10 * 10 by norm_num,
      Real.sqrt_mul_self (by norm_num)]
    norm_num
  have hF1 : (Vector2D.mk (-1 : ℝ) 0).multiply
      (0.5 * REPULSION / ((0 + MIN_NODE_DISTANCE) * (0 + MIN_NODE_DISTANCE))) =
      ⟨-100, 0⟩ := by
    unfold Vector2D.multiply REPULSION MIN_NODE_DISTANCE
    norm_num
  have hF2 : (Vector2D.mk (1 : ℝ) 0).multiply
      (-0.5 * REPULSION / ((0 + MIN_NODE_DISTANCE) * (0 + MIN_NODE_DISTANCE))) =
      ⟨-100, 0⟩ := by
    unfold Vector2D.multiply REPULSION MIN_NODE_DISTANCE
    norm_num
  have hGrav : (lnA.position.multiply (-1)).multiply GRAVITY = ⟨0, 0⟩ := by
    unfold lnA LayoutNode.position Vector2D.multiply GRAVITY
    norm_num
  have hc1 : clampForce ⟨-100, 0⟩ = ⟨-100, 0⟩ :=
    clampForce_of_le _ (by rw [magnitude_neg100]; norm_num [MAX_FORCE_SIZE])
  have hc0 : clampForce ⟨0, 0⟩ = ⟨0, 0⟩ :=
    clampForce_of_le _ (by rw [magnitude_zero_vec]; norm_num [MAX_FORCE_SIZE])
  show applyGravity sampleOverlapLayout
    (applyCoulombsLaw sampleOverlapLayout
      (applyHooksLaw sampleOverlapLayout fun _ => Vector2D.zero)) "a" = _
  rw [hhooks]
  unfold applyGravity applyCoulombsLaw coulombPair sampleOverlapLayout
  simp only [List.foldl_cons, List.foldl_nil]
  simp +decide only [lnA, lnB10, sampleNodeA, sampleNodeB, if_true, if_false]
  simp only [applyForce_apply]
  simp +decide only [if_true, if_false]
  rw [show (LayoutNode.mk ⟨"a", 100, 100, [], 0⟩ 0 0) = lnA by rw [lnA, sampleNodeA],
    show (LayoutNode.mk ⟨"b", 100, 100, [], 0⟩ 10 0) = lnB10 by rw [lnB10, sampleNodeB]]
  rw [hd1, hd2, hn1, hn2, sample_overlap_distanceTo, sample_overlap_distanceTo_rev,
    hF1, hF2, hGrav, hc1, hc0]
  unfold Vector2D.zero Vector2D.add
  norm_num

/-- C4: every individual force application is clamped to magnitude at most
MAX_FORCE_SIZE with direction preserved before being added into the node's
accumulator entry; the clamp is per application, not on the accumulated sum,
and on the concrete overlapping two-node layout the total accumulated force
on node a has magnitude 200, exceeding the cap. -/
theorem claim_C4_per_application_clamp :
    (∀ (fs : Forces) (node : LayoutNode) (force : Vector2D),
      applyForce fs node force node.node.designerId =
        (fs node.node.designerId).add (clampForce force)) ∧
    (∀ force : Vector2D, (clampForce force).magnitude ≤ MAX_FORCE_SIZE) ∧
    (∀ force : Vector2D, ∃ c : ℝ, 0 < c ∧ clampForce force = force.multiply c) ∧
    MAX_FORCE_SIZE < (springyStepForces sampleOverlapLayout "a").magnitude := by
  refine ⟨?_, clampForce_magnitude_le, clampForce_eq_multiply, ?_⟩
  · intro fs node force
    rw [applyForce_apply, if_pos rfl]
  · rw [springyForces_overlap_eval]
    have : (Vector2D.mk (-200 : ℝ) 0).magnitude = 200 := by
      unfold Vector2D.magnitude
      rw [show ((-200 : ℝ) * (-200) + 0 * 0) = 200 * 200 by norm_num,
        Real.sqrt_mul_self (by norm_num)]
    rw [this]
    norm_num [MAX_FORCE_SIZE]

end ClaimC4

section ClaimC1

open GraphLayoutSpec

/-- Every edge produced by fillEdges caches the rectangle distance between
its stored endpoints as its length. -/
theorem fillEdges_length (l : GraphLayout) (e : LayoutEdge)
    (he : e ∈ (l.fillEdges).edges) : e.length = e.source.distanceTo e.target := by
  unfold GraphLayout.fillEdges at he
  simp only [List.mem_map] at he
  obtain ⟨ge, _, rfl⟩ := he
  rfl

/-- C1 amended: in every Layout built by the pipeline (the circular builder,
or any changePositions-based rebuild: relaxation steps, fixViewBox, and the
discrete moves), each layout edge's cached length equals the
rectangle-to-rectangle distance (LayoutNode.distanceTo) between its two
endpoints — not the Euclidean distance between their centers. -/
theorem claim_C1_length_is_rectangle_distance :
    (∀ (g : GraphDefinition) (e : LayoutEdge),
      e ∈ (GraphLayout.createCircle g).edges → e.length = e.source.distanceTo e.target) ∧
    (∀ (l : GraphLayout) (nodeFunc : LayoutNode → LayoutNode) (e : LayoutEdge),
      e ∈ (l.changePositions nodeFunc).edges → e.length = e.source.distanceTo e.target) := by
  constructor
  · intro g e he
    unfold GraphLayout.createCircle at he
    split_ifs at he with h
    · simp at he
    · exact fillEdges_length _ e he
  · intro l nodeFunc e he
    exact fillEdges_length _ e he

/-- The first element of a nonempty list is a member. -/
theorem headI_mem_of_ne_nil {α : Type} [Inhabited α] (l : List α) (h : l ≠ []) :
    l.headI ∈ l := by
  cases l with
  | nil => exact absurd rfl h
  | cons a t => exact List.mem_cons_self a t

/-- C1 witness: the amended theorem applied to a concrete edge of a concrete
discrete-move layout. -/
theorem claim_C1_witness :
    ((sampleMoveLayout.changePositions moveA20).edges.headI.length) =
      ((sampleMoveLayout.changePositions moveA20).edges.headI.source.distanceTo
        ((sampleMoveLayout.changePositions moveA20).edges.headI.target)) :=
  claim_C1_length_is_rectangle_distance.2 sampleMoveLayout moveA20 _
    (headI_mem_of_ne_nil _ (by
      simp [GraphLayout.changePositions, GraphLayout.fillEdges, sampleMoveLayout,
        sampleGraphEdge]))

/-- C1 counterexample: in the layout produced by the first discrete move
candidate of the concrete two-node layout (nodes 100 wide at x = 20 and
x = 200), the cached edge length is the rectangle distance 80, not the
center-to-center Euclidean distance 180. -/
theorem claim_C1_counterexample :
    (sampleMoveLayout.tryMoveNode lnA).headI.edges.headI.length ≠
      centerDistance ((sampleMoveLayout.tryMoveNode lnA).headI.edges.headI.source)
        ((sampleMoveLayout.tryMoveNode lnA).headI.edges.headI.target) := by
  have hhead : (sampleMoveLayout.tryMoveNode lnA).headI =
      sampleMoveLayout.changePositions fun x =>
        if x.node.designerId = lnA.node.designerId then lnA.translate MOVE_STEP 0
        else x := rfl
  rw [hhead]
  have hedge : (sampleMoveLayout.changePositions fun x =>
      if x.node.designerId = lnA.node.designerId then lnA.translate MOVE_STEP 0
      else x).edges.headI =
      ⟨⟨"a", "b"⟩, (lnA.translate MOVE_STEP 0).distanceTo lnB200,
        lnA.translate MOVE_STEP 0, lnB200⟩ := by
    simp +decide [GraphLayout.changePositions, GraphLayout.fillEdges,
      GraphLayout.findLayoutNode, sampleMoveLayout, sampleGraphEdge, List.headI,
      lnA, lnB200, sampleNodeA, sampleNodeB, LayoutNode.translate]
  rw [hedge]
  show (lnA.translate MOVE_STEP 0).distanceTo lnB200 ≠
    centerDistance (lnA.translate MOVE_STEP 0) lnB200
  have hd : (lnA.translate MOVE_STEP 0).distanceTo lnB200 = 80 := by
    unfold LayoutNode.distanceTo rectangleDistance LayoutNode.bounds LayoutNode.left
      LayoutNode.right LayoutNode.top LayoutNode.bottom LayoutNode.translate
      lnA lnB200 sampleNodeA sampleNodeB MOVE_STEP
    norm_num
    rw [show (6400 : ℝ) = 80 * 80 by norm_num, Real.sqrt_mul_self (by norm_num)]
  have hc : centerDistance (lnA.translate MOVE_STEP 0) lnB200 = 180 := by
    unfold centerDistance LayoutNode.translate lnA lnB200 sampleNodeA sampleNodeB MOVE_STEP
    norm_num
    rw [show (32400 : ℝ) = 180 * 180 by norm_num, Real.sqrt_mul_self (by norm_num)]
  rw [hd, hc]
  norm_num

end ClaimC1

section ClaimC2

open GraphLayoutSpec

/-- C2: on the empty graph, the circular builder and the relaxation pass
return the empty layout, but the refinement loop fails: its first
tryMoveElement finds no candidate (the JS source returns null and then
crashes calling score on it), modelled by the `none` result. -/
theorem claim_C2_empty_graph_eval :
    GraphLayout.createCircle emptyGraph = ⟨emptyGraph, [], []⟩ ∧
      (GraphLayout.createCircle emptyGraph).springyAlg = ⟨emptyGraph, [], []⟩ ∧
      (GraphLayout.createCircle emptyGraph).doMoveSteps = none := by
  refine ⟨rfl, ?_, ?_⟩ <;> rfl

end ClaimC2

section ClaimC3

open GraphLayoutSpec

/-- Vectors with equal components are equal. -/
theorem vecExt {a b : Vector2D} (hx : a.x = b.x) (hy : a.y = b.y) : a = b := by
  cases a; cases b; cases hx; cases hy; rfl

/-- Adding the zero vector on the right. -/
theorem add_zero_vec (v : Vector2D) : v.add Vector2D.zero = v := by
  unfold Vector2D.add Vector2D.zero
  exact vecExt (add_zero _) (add_zero _)

/-- Adding the zero vector on the left. -/
theorem zero_add_vec (v : Vector2D) : Vector2D.zero.add v = v := by
  unfold Vector2D.add Vector2D.zero
  exact vecExt (zero_add _) (zero_add _)

/-- Vector addition is associative. -/
theorem add_assoc_vec (a b c : Vector2D) : (a.add b).add c = a.add (b.add c) := by
  unfold Vector2D.add
  exact vecExt (add_assoc _ _ _) (add_assoc _ _ _)

/-- Vector addition commutes past a left summand. -/
theorem add_left_comm_vec (a b c : Vector2D) : a.add (b.add c) = b.add (a.add c) := by
  unfold Vector2D.add
  exact vecExt (by ring) (by ring)

/-- Four-summand exchange for vector addition. -/
theorem add_add_add_comm_vec (a b c d : Vector2D) :
    (a.add b).add (c.add d) = (a.add c).add (b.add d) := by
  unfold Vector2D.add
  exact vecExt (by ring) (by ring)

/-- Reversing a subtraction negates the resulting vector. -/
theorem subtract_swap (u v : Vector2D) : u.subtract v = (v.subtract u).multiply (-1) := by
  unfold Vector2D.subtract Vector2D.multiply
  exact vecExt (by ring) (by ring)

/-- Negating a vector does not change its magnitude and negates its
normalisation. -/
theorem normalise_multiply_neg_one (v : Vector2D) :
    (v.multiply (-1)).normalise = v.normalise.multiply (-1) := by
  unfold Vector2D.normalise
  rw [magnitude_multiply]
  rw [show |(-1 : ℝ)| = 1 by norm_num, one_mul]
  unfold Vector2D.multiply Vector2D.divide
  exact vecExt (by ring) (by ring)

/-- Rectangle distances are nonnegative. -/
theorem distanceTo_nonneg (a b : LayoutNode) : 0 ≤ a.distanceTo b :=
  Real.sqrt_nonneg _

/-- Rectangle distance is symmetric. -/
theorem distanceTo_symm (a b : LayoutNode) : a.distanceTo b = b.distanceTo a := by
  simp only [LayoutNode.distanceTo, rectangleDistance]
  rw [max_comm (a.bounds.left - b.bounds.right) (b.bounds.left - a.bounds.right),
    max_comm (a.bounds.top - b.bounds.bottom) (b.bounds.top - a.bounds.bottom)]

/-- The (b,a) ordering hands node a exactly the same repulsion force as the
(a,b) ordering hands node a. -/
theorem coulombBackward_swap (a b : LayoutNode) :
    coulombBackward b a = coulombForward a b := by
  unfold coulombBackward coulombForward
  rw [distanceTo_symm b a,
    subtract_swap b.position a.position, normalise_multiply_neg_one]
  unfold Vector2D.multiply
  exact vecExt (by ring) (by ring)

/-- The single-ordering repulsion force never exceeds the clamp threshold:
its magnitude is at most 0.5*REPULSION/MIN_NODE_DISTANCE^2 = MAX_FORCE_SIZE. -/
theorem coulombForward_magnitude_le (a b : LayoutNode) :
    (coulombForward a b).magnitude ≤ MAX_FORCE_SIZE := by
  unfold coulombForward
  rw [magnitude_multiply]
  have hd : 0 ≤ a.distanceTo b := distanceTo_nonneg a b
  have hu0 : 0 ≤ ((a.position.subtract b.position).normalise).magnitude :=
    magnitude_nonneg _
  have hu1 : ((a.position.subtract b.position).normalise).magnitude ≤ 1 :=
    magnitude_normalise_le_one _
  have hmpos : (0 : ℝ) <
      (a.distanceTo b + MIN_NODE_DISTANCE) * (a.distanceTo b + MIN_NODE_DISTANCE) := by
    unfold MIN_NODE_DISTANCE
    nlinarith
  have hm : 0.5 * REPULSION /
      ((a.distanceTo b + MIN_NODE_DISTANCE) * (a.distanceTo b + MIN_NODE_DISTANCE)) ≤
      MAX_FORCE_SIZE := by
    rw [div_le_iff₀ hmpos]
    unfold REPULSION MAX_FORCE_SIZE MIN_NODE_DISTANCE
    nlinarith
  have hm0 : 0 ≤ 0.5 * REPULSION /
      ((a.distanceTo b + MIN_NODE_DISTANCE) * (a.distanceTo b + MIN_NODE_DISTANCE)) := by
    apply div_nonneg _ (le_of_lt hmpos)
    unfold REPULSION
    norm_num
  rw [abs_of_nonneg hm0]
  have hM : (0 : ℝ) ≤ MAX_FORCE_SIZE := by unfold MAX_FORCE_SIZE; norm_num
  nlinarith

/-- Two copies of the single-ordering repulsion force add up to the claim's
doubled per-pair repulsion. -/
theorem coulombForward_twice (a b : LayoutNode) :
    (coulombForward a b).add (coulombForward a b) = coulombRepulsion a b := by
  unfold coulombForward coulombRepulsion Vector2D.multiply Vector2D.add
  exact vecExt (by ring) (by ring)

/-- Summing the zero-vector constant gives the zero vector. -/
theorem vsum_map_zero {α : Type} (l : List α) :
    vsum (l.map fun _ => Vector2D.zero) = Vector2D.zero := by
  induction l with
  | nil => rfl
  | cons b rest ih => rw [List.map_cons, vsum, ih, add_zero_vec]

/-- vsum only depends on the mapped values on members. -/
theorem vsum_map_congr {α : Type} (l : List α) (f g : α → Vector2D)
    (h : ∀ b ∈ l, f b = g b) : vsum (l.map f) = vsum (l.map g) := by
  induction l with
  | nil => rfl
  | cons b rest ih =>
    rw [List.map_cons, List.map_cons, vsum, vsum,
      h b (List.mem_cons_self b rest), ih fun x hx => h x (List.mem_cons_of_mem b hx)]

/-- Pointwise sums of mapped vectors merge into one mapped sum. -/
theorem vsum_map_add {α : Type} (l : List α) (f g : α → Vector2D) :
    (vsum (l.map f)).add (vsum (l.map g)) = vsum (l.map fun b => (f b).add (g b)) := by
  induction l with
  | nil => exact add_zero_vec _
  | cons b rest ih =>
    rw [List.map_cons, List.map_cons, List.map_cons, vsum, vsum, vsum,
      add_add_add_comm_vec, ih]

/-- Summing an if-then-else whose condition holds exactly once: the single
hit contributes its value, everything else contributes through the filter. -/
theorem vsum_map_ite_single {α : Type} (l : List α) (p : α → Prop) [DecidablePred p]
    (c : Vector2D) (f : α → Vector2D)
    (hcount : l.countP (fun b => decide (p b)) = 1) :
    vsum (l.map fun b => if p b then c else f b) =
      c.add (vsum ((l.filter fun b => decide (¬ p b)).map f)) := by
  induction l with
  | nil => simp [List.countP_nil] at hcount
  | cons b rest ih =>
    rw [List.countP_cons] at hcount
    by_cases hb : p b
    · have hone : (if (fun b => decide (p b)) b = true then 1 else 0) = 1 := by
        simp [hb]
      rw [hone] at hcount
      have hrest : rest.countP (fun b => decide (p b)) = 0 := by omega
      have hnone : ∀ x ∈ rest, ¬ p x := by
        intro x hx hpx
        have := List.countP_eq_zero.1 hrest x hx
        simp [hpx] at this
      rw [List.map_cons, vsum, if_pos hb, List.filter_cons,
        if_neg (by simp [hb]),
        vsum_map_congr rest _ f fun x hx => if_neg (hnone x hx),
        List.filter_eq_self.2 fun x hx => by simp [hnone x hx]]
    · have hzero : (if (fun b => decide (p b)) b = true then 1 else 0) = 0 := by
        simp [hb]
      rw [hzero] at hcount
      have hrest : rest.countP (fun b => decide (p b)) = 1 := by omega
      rw [List.map_cons, vsum, if_neg hb, List.filter_cons,
        if_pos (by simp [hb]), List.map_cons, vsum, ih hrest, add_left_comm_vec]

/-- coulombPair evaluated pointwise: it adds pairContrib to the entry. -/
theorem coulombPair_apply (n1 n2 : LayoutNode) (fs : Forces) (a : String) :
    coulombPair n1 n2 fs a = (fs a).add (pairContrib a n1 n2) := by
  unfold coulombPair pairContrib
  by_cases h : n1.node.designerId = n2.node.designerId
  · rw [if_pos h, if_pos h, add_zero_vec]
  · rw [if_neg h, if_neg h]
    show applyForce (applyForce fs n1 (coulombForward n1 n2)) n2 (coulombBackward n1 n2) a
      = _
    rw [applyForce_apply, applyForce_apply]
    by_cases h2 : a = n2.node.designerId
    · by_cases h1 : a = n1.node.designerId
      · exact absurd (h1.symm.trans h2) h
      · rw [if_pos h2, if_neg h1, if_neg h1, if_pos h2, zero_add_vec]
    · by_cases h1 : a = n1.node.designerId
      · rw [if_neg h2, if_pos h1, if_pos h1, if_neg h2, add_zero_vec]
      · rw [if_neg h2, if_neg h1, if_neg h1, if_neg h2, add_zero_vec, add_zero_vec]

/-- The inner Coulomb loop evaluated pointwise. -/
theorem coulombInner_apply (n1 : LayoutNode) (ns : List LayoutNode) (fs : Forces)
    (a : String) :
    (ns.foldl (fun fs n2 => coulombPair n1 n2 fs) fs) a =
      (fs a).add (vsum (ns.map fun n2 => pairContrib a n1 n2)) := by
  induction ns generalizing fs with
  | nil => rw [List.foldl_nil, List.map_nil, vsum, add_zero_vec]
  | cons n2 rest ih =>
    rw [List.foldl_cons, ih, coulombPair_apply, List.map_cons, vsum, add_assoc_vec]

/-- The full ordered double loop evaluated pointwise. -/
theorem coulombOuter_apply (ns ms : List LayoutNode) (fs : Forces) (a : String) :
    (ms.foldl (fun fs n1 => ns.foldl (fun fs n2 => coulombPair n1 n2 fs) fs) fs) a =
      (fs a).add
        (vsum (ms.map fun n1 => vsum (ns.map fun n2 => pairContrib a n1 n2))) := by
  induction ms generalizing fs with
  | nil => rw [List.foldl_nil, List.map_nil, vsum, add_zero_vec]
  | cons n1 rest ih =>
    rw [List.foldl_cons, ih, coulombInner_apply, List.map_cons, vsum, add_assoc_vec]

/-- applyCoulombsLaw evaluated pointwise. -/
theorem applyCoulombsLaw_apply (l : GraphLayout) (fs : Forces) (a : String) :
    applyCoulombsLaw l fs a =
      (fs a).add
        (vsum (l.nodes.map fun n1 =>
          vsum (l.nodes.map fun n2 => pairContrib a n1 n2))) :=
  coulombOuter_apply l.nodes l.nodes fs a

/-- With distinct node ids, the id of a placed node occurs exactly once. -/
theorem countP_id_eq_one (ns : List LayoutNode) (a : LayoutNode)
    (hnodup : (ns.map fun n => n.node.designerId).Nodup) (ha : a ∈ ns) :
    ns.countP (fun b => decide (b.node.designerId = a.node.designerId)) = 1 := by
  have hmem : a.node.designerId ∈ ns.map fun n => n.node.designerId :=
    List.mem_map_of_mem _ ha
  have h1 : List.count a.node.designerId
      (ns.map fun n => n.node.designerId) = 1 :=
    List.count_eq_one_of_mem hnodup hmem
  rw [List.count, List.countP_map] at h1
  rw [← h1]
  exact List.countP_congr fun x _ => by simp

/-- C3: in one Coulomb pass, the accumulator entry of any node a grows by the
sum, over every other node b, of twice the single-ordering repulsion
magnitude 0.5*REPULSION/(distance + MIN_NODE_DISTANCE)^2 directed away from
b — each unordered pair is applied once per ordering, and the per-application
clamp never fires because that magnitude is at most MAX_FORCE_SIZE. -/
theorem claim_C3_repulsion_applied_twice (l : GraphLayout) (fs : Forces)
    (a : LayoutNode)
    (hnodup : (l.nodes.map fun n => n.node.designerId).Nodup)
    (ha : a ∈ l.nodes) :
    applyCoulombsLaw l fs a.node.designerId =
      (fs a.node.designerId).add
        (vsum ((l.nodes.filter fun b =>
            decide (¬ b.node.designerId = a.node.designerId)).map
          fun b => coulombRepulsion a b)) := by
  have hinj : ∀ x ∈ l.nodes, x.node.designerId = a.node.designerId → x = a :=
    fun x hx h => List.inj_on_of_nodup_map hnodup hx ha h
  have hcount := countP_id_eq_one l.nodes a hnodup ha
  rw [applyCoulombsLaw_apply]
  congr 1
  have hstep1 : ∀ n1 ∈ l.nodes,
      vsum (l.nodes.map fun n2 => pairContrib a.node.designerId n1 n2) =
        if n1.node.designerId = a.node.designerId then
          vsum ((l.nodes.filter fun b =>
            decide (¬ b.node.designerId = a.node.designerId)).map
            fun n2 => clampForce (coulombForward a n2))
        else clampForce (coulombBackward n1 a) := by
    intro n1 hn1
    by_cases h : n1.node.designerId = a.node.designerId
    · have hna : n1 = a := hinj n1 hn1 h
      subst hna
      rw [if_pos h]
      have hmem : ∀ n2 ∈ l.nodes, pairContrib n1.node.designerId n1 n2 =
          if n2.node.designerId = n1.node.designerId then Vector2D.zero
          else clampForce (coulombForward n1 n2) := by
        intro n2 _
        unfold pairContrib
        by_cases hg : n1.node.designerId = n2.node.designerId
        · rw [if_pos hg, if_pos hg.symm]
        · rw [if_neg hg,
            if_pos (show n1.node.designerId = n1.node.designerId from rfl),
            if_neg hg, add_zero_vec, if_neg fun hh => hg hh.symm]
      rw [vsum_map_congr _ _ _ hmem,
        vsum_map_ite_single l.nodes
          (fun n2 => n2.node.designerId = n1.node.designerId) Vector2D.zero _ hcount,
        zero_add_vec]
    · rw [if_neg h]
      have hmem : ∀ n2 ∈ l.nodes, pairContrib a.node.designerId n1 n2 =
          if n2.node.designerId = a.node.designerId then
            clampForce (coulombBackward n1 a) else Vector2D.zero := by
        intro n2 hn2
        unfold pairContrib
        by_cases h2 : n2.node.designerId = a.node.designerId
        · obtain rfl : n2 = a := hinj n2 hn2 h2
          rw [if_neg h, if_neg fun hh => h hh.symm, zero_add_vec,
            if_pos (show n2.node.designerId = n2.node.designerId from rfl)]
        · by_cases hg : n1.node.designerId = n2.node.designerId
          · rw [if_pos hg, if_neg h2]
          · rw [if_neg hg, if_neg fun hh => h hh.symm,
              if_neg fun hh => h2 hh.symm, add_zero_vec, if_neg h2]
      rw [vsum_map_congr _ _ _ hmem,
        vsum_map_ite_single l.nodes
          (fun n2 => n2.node.designerId = a.node.designerId)
          (clampForce (coulombBackward n1 a)) _ hcount,
        vsum_map_zero, add_zero_vec]
  rw [vsum_map_congr _ _ _ hstep1,
    vsum_map_ite_single l.nodes
      (fun n1 => n1.node.designerId = a.node.designerId) _ _ hcount]
  have hfirst : ∀ b ∈ (l.nodes.filter fun b =>
      decide (¬ b.node.designerId = a.node.designerId)),
      clampForce (coulombForward a b) = coulombForward a b :=
    fun b _ => clampForce_of_le _ (coulombForward_magnitude_le a b)
  have hsecond : ∀ b ∈ (l.nodes.filter fun b =>
      decide (¬ b.node.designerId = a.node.designerId)),
      clampForce (coulombBackward b a) = coulombForward a b := by
    intro b hb
    rw [coulombBackward_swap a b]
    exact clampForce_of_le _ (coulombForward_magnitude_le a b)
  rw [vsum_map_congr _ _ _ hfirst, vsum_map_congr _ _ _ hsecond, vsum_map_add,
    vsum_map_congr _ _ _ fun b _ => coulombForward_twice a b]

/-- C3 witness: the theorem applied to the concrete overlapping two-node
layout at its first node. -/
theorem claim_C3_witness :
    applyCoulombsLaw sampleOverlapLayout (fun _ => Vector2D.zero)
        lnA.node.designerId =
      ((fun _ => Vector2D.zero : Forces) lnA.node.designerId).add
        (vsum ((sampleOverlapLayout.nodes.filter fun b =>
            decide (¬ b.node.designerId = lnA.node.designerId)).map
          fun b => coulombRepulsion lnA b)) :=
  claim_C3_repulsion_applied_twice sampleOverlapLayout (fun _ => Vector2D.zero) lnA
    (by simp +decide [sampleOverlapLayout, lnA, lnB10, sampleNodeA, sampleNodeB])
    (by simp [sampleOverlapLayout])

end ClaimC3

section ClaimC5

open GraphLayoutSpec

/-- changePositions keeps the number of placed nodes. -/
theorem changePositions_length (l : GraphLayout) (f : LayoutNode → LayoutNode) :
    (l.changePositions f).nodes.length = l.nodes.length := by
  simp [GraphLayout.changePositions, GraphLayout.fillEdges]

/-- Every tryMoveNode candidate keeps the number of placed nodes. -/
theorem tryMoveNode_length (l : GraphLayout) (n : LayoutNode) :
    ∀ c ∈ l.tryMoveNode n, c.nodes.length = l.nodes.length := by
  intro c hc
  simp only [GraphLayout.tryMoveNode, List.mem_cons, List.not_mem_nil, or_false] at hc
  rcases hc with rfl | rfl | rfl | rfl | rfl | rfl | rfl | rfl <;>
    exact changePositions_length l _

/-- pickBetter never turns a some-state into none. -/
theorem pickBetter_isSome (st : Option (GraphLayout × ℝ)) (x : GraphLayout) :
    ∃ q, pickBetter st x = some q := by
  cases st with
  | none => exact ⟨(x, x.score), rfl⟩
  | some pr =>
    rcases pr with ⟨r, rs⟩
    have hred : pickBetter (some (r, rs)) x =
        if x.score < rs then some (x, x.score) else some (r, rs) := rfl
    by_cases h : x.score < rs
    · exact ⟨(x, x.score), by rw [hred, if_pos h]⟩
    · exact ⟨(r, rs), by rw [hred, if_neg h]⟩

/-- The pickBetter fold preserves any property of the tracked layout that all
scanned candidates enjoy. -/
theorem foldl_pickBetter_pres (S : GraphLayout → Prop) (items : List GraphLayout) :
    ∀ st : Option (GraphLayout × ℝ), (∀ p, st = some p → S p.1) →
      (∀ x ∈ items, S x) →
      ∀ p, items.foldl pickBetter st = some p → S p.1 := by
  induction items with
  | nil => exact fun st hst _ p hp => hst p hp
  | cons x rest ih =>
    intro st hst hx p hp
    rw [List.foldl_cons] at hp
    refine ih (pickBetter st x) ?_ (fun y hy => hx y (List.mem_cons_of_mem _ hy)) p hp
    intro q hq
    cases st with
    | none =>
      obtain rfl := Option.some.inj hq
      exact hx x (List.mem_cons_self x rest)
    | some pr =>
      rcases pr with ⟨r, rs⟩
      rw [show pickBetter (some (r, rs)) x =
        if x.score < rs then some (x, x.score) else some (r, rs) from rfl] at hq
      split_ifs at hq
      · obtain rfl := Option.some.inj hq
        exact hx x (List.mem_cons_self x rest)
      · obtain rfl := Option.some.inj hq
        exact hst (r, rs) rfl

/-- The pickBetter fold started from a some-state stays some. -/
theorem foldl_pickBetter_some (items : List GraphLayout) :
    ∀ q, ∃ q', items.foldl pickBetter (some q) = some q' := by
  induction items with
  | nil => exact fun q => ⟨q, rfl⟩
  | cons x rest ih =>
    intro q
    obtain ⟨q1, h1⟩ := pickBetter_isSome (some q) x
    rw [List.foldl_cons, h1]
    exact ih q1

/-- The outer node fold of tryMoveElement preserves candidate properties. -/
theorem foldl_nodes_pres (l : GraphLayout) (S : GraphLayout → Prop)
    (hS : ∀ n ∈ l.nodes, ∀ c ∈ l.tryMoveNode n, S c) :
    ∀ (ns : List LayoutNode), (∀ n ∈ ns, n ∈ l.nodes) →
      ∀ st : Option (GraphLayout × ℝ), (∀ p, st = some p → S p.1) →
      ∀ p, (ns.foldl (fun st node => (l.tryMoveNode node).foldl pickBetter st) st) =
        some p → S p.1 := by
  intro ns
  induction ns with
  | nil => exact fun _ st hst p hp => hst p hp
  | cons n rest ih =>
    intro hmem st hst p hp
    rw [List.foldl_cons] at hp
    refine ih (fun x hx => hmem x (List.mem_cons_of_mem _ hx)) _ ?_ p hp
    exact foldl_pickBetter_pres S (l.tryMoveNode n) st hst
      (hS n (hmem n (List.mem_cons_self n rest)))

/-- Every accepted tryMoveElement result satisfies any property shared by all
candidates of all nodes. -/
theorem tryMoveElement_pres (l : GraphLayout) (S : GraphLayout → Prop)
    (hS : ∀ n ∈ l.nodes, ∀ c ∈ l.tryMoveNode n, S c) :
    ∀ r, l.tryMoveElement = some r → S r := by
  intro r hr
  unfold GraphLayout.tryMoveElement at hr
  rw [Option.map_eq_some'] at hr
  obtain ⟨p, hp, rfl⟩ := hr
  exact foldl_nodes_pres l S hS l.nodes (fun _ h => h) none (by simp) p hp

/-- On a layout with at least one node, tryMoveElement returns a layout. -/
theorem tryMoveElement_some (l : GraphLayout) (hne : l.nodes ≠ []) :
    ∃ r, l.tryMoveElement = some r := by
  unfold GraphLayout.tryMoveElement
  obtain ⟨n, rest, hcons⟩ := List.exists_cons_of_ne_nil hne
  have hsome : ∀ (ns : List LayoutNode) (q : GraphLayout × ℝ),
      ∃ q', (ns.foldl (fun st node => (l.tryMoveNode node).foldl pickBetter st)
        (some q)) = some q' := by
    intro ns
    induction ns with
    | nil => exact fun q => ⟨q, rfl⟩
    | cons m mrest ih =>
      intro q
      obtain ⟨q1, h1⟩ := foldl_pickBetter_some (l.tryMoveNode m) q
      rw [List.foldl_cons, h1]
      exact ih q1
  rw [hcons, List.foldl_cons]
  have hfirst : ∃ q1, ((l.tryMoveNode n).foldl pickBetter none) = some q1 := by
    show ∃ q1, (List.foldl pickBetter none
      (l.changePositions _ :: _)) = some q1
    rw [List.foldl_cons]
    exact foldl_pickBetter_some _ _
  obtain ⟨q1, hq1⟩ := hfirst
  rw [hq1]
  obtain ⟨q', hq'⟩ := hsome rest q1
  exact ⟨q'.1, by rw [hq']; rfl⟩

/-- Accepted tryMoveElement results keep the number of placed nodes. -/
theorem tryMoveElement_length (l : GraphLayout) (r : GraphLayout)
    (hr : l.tryMoveElement = some r) : r.nodes.length = l.nodes.length :=
  tryMoveElement_pres l (fun c => c.nodes.length = l.nodes.length)
    (fun n _ c hc => tryMoveNode_length l n c hc) r hr

/-- The refinement loop with arbitrary fuel: it runs some number of accepted
steps n within the fuel bound, every accepted step improves the score by at
least MINIMAL_SCORE_BENEFIT, the result is the n-th layout of the chain, and
if it stopped before exhausting the fuel the step out of the final layout
brought insufficient benefit (that step was discarded). -/
theorem doMoveStepsAux_spec : ∀ (fuel : ℕ) (l : GraphLayout), l.nodes ≠ [] →
    ∃ n ≤ fuel, ∃ c : ℕ → GraphLayout,
      c 0 = l ∧
      doMoveStepsAux l l.score fuel = some (c n) ∧
      (∀ i < n, (c i).tryMoveElement = some (c (i + 1)) ∧
        (c (i + 1)).score ≤ (c i).score - MINIMAL_SCORE_BENEFIT) ∧
      (c n).nodes ≠ [] ∧
      (n < fuel → ∀ r, (c n).tryMoveElement = some r →
        (c n).score - r.score < MINIMAL_SCORE_BENEFIT) := by
  intro fuel
  induction fuel with
  | zero =>
    intro l hne
    exact ⟨0, le_refl 0, fun _ => l, rfl, rfl, fun i hi => absurd hi (Nat.not_lt_zero i),
      hne, fun h => absurd h (lt_irrefl 0)⟩
  | succ fuel ih =>
    intro l hne
    obtain ⟨r, hr⟩ := tryMoveElement_some l hne
    have heval : doMoveStepsAux l l.score (fuel + 1) =
        if l.score - r.score < MINIMAL_SCORE_BENEFIT then some l
        else doMoveStepsAux r r.score fuel := by
      show (match l.tryMoveElement with
        | none => none
        | some next =>
          if l.score - next.score < MINIMAL_SCORE_BENEFIT then some l
          else doMoveStepsAux next next.score fuel) = _
      rw [hr]
    by_cases hben : l.score - r.score < MINIMAL_SCORE_BENEFIT
    · refine ⟨0, Nat.zero_le _, fun _ => l, rfl, ?_, fun i hi => absurd hi (Nat.not_lt_zero i),
        hne, fun _ r' hr' => ?_⟩
      · rw [heval, if_pos hben]
      · rw [hr] at hr'
        obtain rfl := Option.some.inj hr'
        exact hben
    · have hner : r.nodes ≠ [] := by
        have hlen := tryMoveElement_length l r hr
        intro hnil
        rw [hnil] at hlen
        exact hne (List.length_eq_zero.1 hlen.symm)
      obtain ⟨n', hn', c', hc0, hres, hsteps, hcne, hstop⟩ := ih r hner
      refine ⟨n' + 1, Nat.succ_le_succ hn',
        fun i => match i with | 0 => l | j + 1 => c' j, rfl, ?_, ?_, hcne, ?_⟩
      · rw [heval, if_neg hben]
        exact hres
      · intro i hi
        match i with
        | 0 =>
          show l.tryMoveElement = some (c' 0) ∧
            (c' 0).score ≤ l.score - MINIMAL_SCORE_BENEFIT
          rw [hc0]
          exact ⟨hr, by linarith [not_lt.1 hben]⟩
        | j + 1 =>
          show (c' j).tryMoveElement = some (c' (j + 1)) ∧
            (c' (j + 1)).score ≤ (c' j).score - MINIMAL_SCORE_BENEFIT
          exact hsteps j (Nat.lt_of_succ_lt_succ hi)
      · intro hlt r' hr'
        exact hstop (Nat.lt_of_succ_lt_succ hlt) r' hr'

/-- C5: for every layout with at least one node, doMoveSteps returns a result
(no crash) reached by at most MOVE_STEP_COUNT accepted steps; every accepted
step improves the score by at least MINIMAL_SCORE_BENEFIT (so the score is
strictly decreasing along the accepted chain), and if it stopped before the
step cap, the discarded step out of the returned layout improved the score by
less than MINIMAL_SCORE_BENEFIT — the returned layout is the pre-step one. -/
theorem claim_C5_doMoveSteps_progress (l : GraphLayout) (hne : l.nodes ≠ []) :
    ∃ n ≤ MOVE_STEP_COUNT, ∃ c : ℕ → GraphLayout,
      c 0 = l ∧
      l.doMoveSteps = some (c n) ∧
      (∀ i < n, (c i).tryMoveElement = some (c (i + 1)) ∧
        (c (i + 1)).score ≤ (c i).score - MINIMAL_SCORE_BENEFIT) ∧
      (n < MOVE_STEP_COUNT → ∀ r, (c n).tryMoveElement = some r →
        (c n).score - r.score < MINIMAL_SCORE_BENEFIT) := by
  obtain ⟨n, hn, c, h0, hres, hsteps, _, hstop⟩ :=
    doMoveStepsAux_spec MOVE_STEP_COUNT l hne
  exact ⟨n, hn, c, h0, hres, hsteps, hstop⟩

/-- C5 witness: the theorem applied to the concrete single-node layout. -/
theorem claim_C5_witness :
    sampleSingleLayout.nodes ≠ [] ∧
      ∃ n ≤ MOVE_STEP_COUNT, ∃ c : ℕ → GraphLayout,
        c 0 = sampleSingleLayout ∧
        sampleSingleLayout.doMoveSteps = some (c n) ∧
        (∀ i < n, (c i).tryMoveElement = some (c (i + 1)) ∧
          (c (i + 1)).score ≤ (c i).score - MINIMAL_SCORE_BENEFIT) ∧
        (n < MOVE_STEP_COUNT → ∀ r, (c n).tryMoveElement = some r →
          (c n).score - r.score < MINIMAL_SCORE_BENEFIT) :=
  ⟨by simp [sampleSingleLayout],
    claim_C5_doMoveSteps_progress sampleSingleLayout (by simp [sampleSingleLayout])⟩

end ClaimC5

section TraversalLemmas

open GraphLayoutSpec

/-- annGo on the empty worklist. -/
theorem annGo_nil (g : GraphDefinition) (fuel : ℕ) (res : List GraphNode)
    (added : List String) : annGo g fuel [] res added = (res, added) := by
  rw [annGo.eq_def]

/-- annGo skips an already visited head. -/
theorem annGo_visited (g : GraphDefinition) (fuel : ℕ) (n : GraphNode)
    (rest res : List GraphNode) (added : List String)
    (h : added.contains n.designerId = true) :
    annGo g fuel (n :: rest) res added = annGo g fuel rest res added := by
  conv_lhs => rw [annGo.eq_def]
  simp only [h, eq_self_iff_true, if_true]

/-- annGo stops when fuel is exhausted at an unvisited head (never reached
from circleSortedNodes, as proved below). -/
theorem annGo_fuel0 (g : GraphDefinition) (n : GraphNode)
    (rest res : List GraphNode) (added : List String)
    (h : added.contains n.designerId = false) :
    annGo g 0 (n :: rest) res added = (res, added) := by
  rw [annGo.eq_def]
  simp only [h, Bool.false_eq_true, if_false]

/-- annGo visits an unvisited head: appends it, recurses into its sorted
neighbors, then continues with the rest. -/
theorem annGo_new (g : GraphDefinition) (fuel' : ℕ) (n : GraphNode)
    (rest res : List GraphNode) (added : List String)
    (h : added.contains n.designerId = false) :
    annGo g (fuel' + 1) (n :: rest) res added =
      annGo g (fuel' + 1) rest
        (annGo g fuel' (sortNodes (neighborNodes g n)) (res ++ [n])
          (added ++ [n.designerId])).1
        (annGo g fuel' (sortNodes (neighborNodes g n)) (res ++ [n])
          (added ++ [n.designerId])).2 := by
  conv_lhs => rw [annGo.eq_def]
  simp only [h, Bool.false_eq_true, if_false]

/-- Sorted neighbor lists only contain graph nodes. -/
theorem neighborNodes_subset (g : GraphDefinition) (n : GraphNode) :
    ∀ x ∈ sortNodes (neighborNodes g n), x ∈ g.nodes := by
  intro x hx
  have hx2 : x ∈ neighborNodes g n :=
    (List.mergeSort_perm (neighborNodes g n) nodeSortLe).subset hx
  unfold neighborNodes at hx2
  obtain ⟨i, _, hfind⟩ := List.mem_filterMap.1 hx2
  exact List.mem_of_find?_eq_some hfind

/-- The traversal only ever appends to its output and visited lists. -/
theorem annGo_extends (g : GraphDefinition) (fuel : ℕ) (ns res : List GraphNode)
    (added : List String) :
    ∃ ext ids2, (annGo g fuel ns res added).1 = res ++ ext ∧
      (annGo g fuel ns res added).2 = added ++ ids2 := by
  induction fuel, ns, res, added using annGo.induct g with
  | case1 fuel res added =>
    refine ⟨[], [], ?_, ?_⟩ <;> simp [annGo_nil]
  | case2 fuel res added n rest h ih =>
    rw [annGo_visited g fuel n rest res added h]
    exact ih
  | case3 res added n rest h =>
    rw [annGo_fuel0 g n rest res added (by simpa using h)]
    exact ⟨[], [], by simp, by simp⟩
  | case4 res added n rest h fuel' p ih1 ih2 =>
    have hf : added.contains n.designerId = false := by simpa using h
    have hp : p = annGo g fuel' (sortNodes (neighborNodes g n)) (res ++ [n])
      (added ++ [n.designerId]) := rfl
    rw [hp] at ih2
    rw [annGo_new g fuel' n rest res added hf]
    obtain ⟨e1, i1, h11, h12⟩ := ih1
    obtain ⟨e2, i2, h21, h22⟩ := ih2
    refine ⟨[n] ++ e1 ++ e2, [n.designerId] ++ i1 ++ i2, ?_, ?_⟩
    · rw [h21, h11]
      simp
    · rw [h22, h12]
      simp

/-- Soundness of the traversal: starting from consistent state (visited ids
are exactly the ids of the output, without duplicates, and the worklist holds
graph nodes), the output extends by a duplicate-free block of graph nodes
whose ids are the new visited ids. -/
theorem annGo_sound (g : GraphDefinition) (fuel : ℕ) (ns res : List GraphNode)
    (added : List String) :
    added = res.map GraphNode.designerId → added.Nodup →
    (∀ x ∈ ns, x ∈ g.nodes) →
    ∃ ext : List GraphNode,
      (annGo g fuel ns res added).1 = res ++ ext ∧
      (annGo g fuel ns res added).2 = added ++ ext.map GraphNode.designerId ∧
      (added ++ ext.map GraphNode.designerId).Nodup ∧
      (∀ x ∈ ext, x ∈ g.nodes) := by
  induction fuel, ns, res, added using annGo.induct g with
  | case1 fuel res added =>
    intro h1 h2 _
    exact ⟨[], by simp [annGo_nil], by simp [annGo_nil], by simpa using h2, by simp⟩
  | case2 fuel res added n rest h ih =>
    intro h1 h2 h3
    rw [annGo_visited g fuel n rest res added h]
    exact ih h1 h2 fun x hx => h3 x (List.mem_cons_of_mem n hx)
  | case3 res added n rest h =>
    intro h1 h2 _
    rw [annGo_fuel0 g n rest res added (by simpa using h)]
    exact ⟨[], by simp, by simp, by simpa using h2, by simp⟩
  | case4 res added n rest h fuel' p ih1 ih2 =>
    intro h1 h2 h3
    have hf : added.contains n.designerId = false := by simpa using h
    have hnmem : n.designerId ∉ added := by simpa using hf
    have hp : p = annGo g fuel' (sortNodes (neighborNodes g n)) (res ++ [n])
      (added ++ [n.designerId]) := rfl
    rw [hp] at ih2
    rw [annGo_new g fuel' n rest res added hf]
    have h1' : added ++ [n.designerId] = (res ++ [n]).map GraphNode.designerId := by
      rw [List.map_append, h1]
      rfl
    have h2' : (added ++ [n.designerId]).Nodup := by
      rw [List.nodup_append]
      refine ⟨h2, List.nodup_singleton _, ?_⟩
      intro x hx hx1
      rw [List.mem_singleton] at hx1
      exact hnmem (hx1 ▸ hx)
    obtain ⟨e1, p11, p12, pnd, psub⟩ := ih1 h1' h2' (neighborNodes_subset g n)
    have hmap : (annGo g fuel' (sortNodes (neighborNodes g n)) (res ++ [n])
        (added ++ [n.designerId])).2 =
        (annGo g fuel' (sortNodes (neighborNodes g n)) (res ++ [n])
          (added ++ [n.designerId])).1.map GraphNode.designerId := by
      rw [p11, p12, List.map_append, h1']
    have hpnd : (annGo g fuel' (sortNodes (neighborNodes g n)) (res ++ [n])
        (added ++ [n.designerId])).2.Nodup := by
      rw [p12]
      exact pnd
    obtain ⟨e2, q1, q2, qnd, qsub⟩ :=
      ih2 hmap hpnd fun x hx => h3 x (List.mem_cons_of_mem n hx)
    refine ⟨n :: (e1 ++ e2), ?_, ?_, ?_, ?_⟩
    · rw [q1, p11]
      simp
    · rw [q2, p12]
      simp
    · have : added ++ (n :: (e1 ++ e2)).map GraphNode.designerId =
          ((added ++ [n.designerId]) ++ e1.map GraphNode.designerId) ++
            e2.map GraphNode.designerId := by simp
      rw [this]
      rw [p12] at qnd
      exact qnd
    · intro x hx
      rcases List.mem_cons.1 hx with rfl | hx'
      · exact h3 x (List.mem_cons_self x rest)
      · rcases List.mem_append.1 hx' with hx1 | hx2
        · exact psub x hx1
        · exact qsub x hx2

/-- Completeness of the traversal: with fuel exceeding the number of not yet
visited graph ids, every worklist node ends up visited. -/
theorem annGo_complete (g : GraphDefinition) (fuel : ℕ) (ns res : List GraphNode)
    (added : List String) :
    (∀ x ∈ ns, x ∈ g.nodes) →
    ((g.nodes.map GraphNode.designerId).toFinset \ added.toFinset).card < fuel →
    ∀ x ∈ ns, x.designerId ∈ (annGo g fuel ns res added).2 := by
  induction fuel, ns, res, added using annGo.induct g with
  | case1 fuel res added =>
    intro _ _ x hx
    exact absurd hx (List.not_mem_nil x)
  | case2 fuel res added n rest h ih =>
    intro hsub hcard x hx
    rw [annGo_visited g fuel n rest res added h]
    rcases List.mem_cons.1 hx with rfl | hx'
    · have hmem : x.designerId ∈ added := by simpa using h
      obtain ⟨e, i2, _, hout2⟩ := annGo_extends g fuel rest res added
      rw [hout2]
      exact List.mem_append_left _ hmem
    · exact ih (fun y hy => hsub y (List.mem_cons_of_mem n hy)) hcard x hx'
  | case3 res added n rest h =>
    intro _ hcard
    exact absurd hcard (Nat.not_lt_zero _)
  | case4 res added n rest h fuel' p ih1 ih2 =>
    intro hsub hcard x hx
    have hf : added.contains n.designerId = false := by simpa using h
    have hnmem : n.designerId ∉ added := by simpa using hf
    have hp : p = annGo g fuel' (sortNodes (neighborNodes g n)) (res ++ [n])
      (added ++ [n.designerId]) := rfl
    rw [hp] at ih2
    rw [annGo_new g fuel' n rest res added hf]
    have hins : (added ++ [n.designerId]).toFinset =
        insert n.designerId added.toFinset := by
      rw [List.toFinset_append]
      ext y
      simp [or_comm]
    have hsd : (g.nodes.map GraphNode.designerId).toFinset \
        (added ++ [n.designerId]).toFinset =
        ((g.nodes.map GraphNode.designerId).toFinset \ added.toFinset).erase
          n.designerId := by
      rw [hins]
      ext y
      simp only [Finset.mem_sdiff, Finset.mem_insert, Finset.mem_erase]
      tauto
    have hnin : n.designerId ∈
        (g.nodes.map GraphNode.designerId).toFinset \ added.toFinset := by
      rw [Finset.mem_sdiff]
      refine ⟨?_, by simpa using hnmem⟩
      rw [List.mem_toFinset]
      exact List.mem_map_of_mem _ (hsub n (List.mem_cons_self n rest))
    have hcard' : ((g.nodes.map GraphNode.designerId).toFinset \
        (added ++ [n.designerId]).toFinset).card < fuel' := by
      rw [hsd, Finset.card_erase_of_mem hnin]
      have hpos : 0 < ((g.nodes.map GraphNode.designerId).toFinset \
          added.toFinset).card := Finset.card_pos.2 ⟨_, hnin⟩
      omega
    obtain ⟨e1, i1, _, hp2⟩ := annGo_extends g fuel'
      (sortNodes (neighborNodes g n)) (res ++ [n]) (added ++ [n.designerId])
    obtain ⟨e2, i2, _, hout2⟩ := annGo_extends g (fuel' + 1) rest
      (annGo g fuel' (sortNodes (neighborNodes g n)) (res ++ [n])
        (added ++ [n.designerId])).1
      (annGo g fuel' (sortNodes (neighborNodes g n)) (res ++ [n])
        (added ++ [n.designerId])).2
    rcases List.mem_cons.1 hx with rfl | hx'
    · rw [hout2, hp2]
      exact List.mem_append_left _ (List.mem_append_left _
        (List.mem_append_right _ (List.mem_singleton_self _)))
    · have hsubset : (added ++ [n.designerId]).toFinset ⊆
          (annGo g fuel' (sortNodes (neighborNodes g n)) (res ++ [n])
            (added ++ [n.designerId])).2.toFinset := by
        intro y hy
        rw [List.mem_toFinset] at hy ⊢
        rw [hp2]
        exact List.mem_append_left _ hy
      have hcardp : ((g.nodes.map GraphNode.designerId).toFinset \
          (annGo g fuel' (sortNodes (neighborNodes g n)) (res ++ [n])
            (added ++ [n.designerId])).2.toFinset).card < fuel' + 1 := by
        have hle : ((g.nodes.map GraphNode.designerId).toFinset \
            (annGo g fuel' (sortNodes (neighborNodes g n)) (res ++ [n])
              (added ++ [n.designerId])).2.toFinset).card ≤
            ((g.nodes.map GraphNode.designerId).toFinset \
              (added ++ [n.designerId]).toFinset).card :=
          Finset.card_le_card
            (Finset.sdiff_subset_sdiff (Finset.Subset.refl _) hsubset)
        omega
      exact ih2 (fun y hy => hsub y (List.mem_cons_of_mem n hy)) hcardp x hx'

/-- With duplicate-free node ids, the circle traversal order is a
permutation of the graph's node list, and its ids are duplicate-free. -/
theorem circleSortedNodes_perm (g : GraphDefinition)
    (hnodup : (g.nodes.map GraphNode.designerId).Nodup) :
    (circleSortedNodes g).Perm g.nodes ∧
      ((circleSortedNodes g).map GraphNode.designerId).Nodup := by
  have hsort : ∀ x ∈ sortNodes g.nodes, x ∈ g.nodes :=
    fun x hx => (List.mergeSort_perm g.nodes nodeSortLe).subset hx
  obtain ⟨ext, h1, h2, hnd, hsub⟩ := annGo_sound g (g.nodes.length + 1)
    (sortNodes g.nodes) [] [] (by simp) List.nodup_nil hsort
  have hcsn : circleSortedNodes g = ext := by
    unfold circleSortedNodes
    rw [h1]
    simp
  have hidsnd : (ext.map GraphNode.designerId).Nodup := by simpa using hnd
  have hout2 : (annGo g (g.nodes.length + 1) (sortNodes g.nodes) [] []).2 =
      ext.map GraphNode.designerId := by
    rw [h2]
    simp
  have hcard : ((g.nodes.map GraphNode.designerId).toFinset \
      (List.nil : List String).toFinset).card < g.nodes.length + 1 := by
    simp only [List.toFinset_nil, Finset.sdiff_empty]
    have := List.toFinset_card_le (g.nodes.map GraphNode.designerId)
    simp only [List.length_map] at this
    omega
  have hcompl := annGo_complete g (g.nodes.length + 1) (sortNodes g.nodes) [] []
    hsort hcard
  have hmemiff : ∀ y, y ∈ ext ↔ y ∈ g.nodes := by
    intro y
    constructor
    · exact hsub y
    · intro hy
      have hy2 : y ∈ sortNodes g.nodes :=
        (List.mergeSort_perm g.nodes nodeSortLe).mem_iff.2 hy
      have hid : y.designerId ∈ ext.map GraphNode.designerId := by
        rw [← hout2]
        exact hcompl y hy2
      obtain ⟨m, hm, hmid⟩ := List.mem_map.1 hid
      have hmg : m ∈ g.nodes := hsub m hm
      have : m = y := List.inj_on_of_nodup_map hnodup hmg hy hmid
      exact this ▸ hm
  have hextnd : ext.Nodup := hidsnd.of_map
  have hgnd : g.nodes.Nodup := hnodup.of_map
  constructor
  · rw [hcsn]
    exact (List.perm_ext_iff_of_nodup hextnd hgnd).2 hmemiff
  · rw [hcsn]
    exact hidsnd

end TraversalLemmas

section CircleLemmas

open GraphLayoutSpec

/-- The placement loop pairs the ordered nodes 1:1 with placed nodes. -/
theorem placeCircle_node (r d : ℝ) :
    ∀ (ns : List GraphNode) (a : ℝ),
      (placeCircle r d ns a).map LayoutNode.node = ns := by
  intro ns
  induction ns with
  | nil => intro a; rfl
  | cons n rest ih =>
    intro a
    show LayoutNode.node ⟨n, _, _⟩ :: (placeCircle r d rest (a + d)).map LayoutNode.node
      = n :: rest
    rw [ih (a + d)]

/-- The placement loop preserves length. -/
theorem placeCircle_length (r d : ℝ) (ns : List GraphNode) (a : ℝ) :
    (placeCircle r d ns a).length = ns.length := by
  have := placeCircle_node r d ns a
  have h2 := congrArg List.length this
  simpa using h2

/-- The k-th placed node: the k-th ordered node at angle `a + k*d`. -/
theorem placeCircle_get (r d : ℝ) :
    ∀ (ns : List GraphNode) (a : ℝ) (k : ℕ) (hk : k < ns.length),
      (placeCircle r d ns a).get
          ⟨k, by rw [placeCircle_length]; exact hk⟩ =
        ⟨ns.get ⟨k, hk⟩, Real.sin (a + k * d) * r, Real.cos (a + k * d) * r⟩ := by
  intro ns
  induction ns with
  | nil => intro a k hk; exact absurd hk (Nat.not_lt_zero k)
  | cons n rest ih =>
    intro a k hk
    match k with
    | 0 =>
      show (⟨n, Real.sin a * r, Real.cos a * r⟩ : LayoutNode) = _
      have ha : a + (0 : ℕ) * d = a := by norm_num
      rw [ha]
      rfl
    | k + 1 =>
      have hk' : k < rest.length := Nat.lt_of_succ_lt_succ hk
      have := ih (a + d) k hk'
      show (placeCircle r d rest (a + d)).get
          ⟨k, by rw [placeCircle_length]; exact hk'⟩ = _
      rw [this]
      have hangle : a + d + (k : ℝ) * d = a + ((k : ℕ) + 1 : ℕ) * d := by
        push_cast
        ring
      rw [hangle]
      rfl

/-- The nodes of a nonempty createCircle layout, traced back to the
traversal order. -/
theorem createCircle_nodes_map (g : GraphDefinition)
    (hne : ¬ g.nodes.isEmpty = true) :
    (GraphLayout.createCircle g).nodes.map LayoutNode.node = circleSortedNodes g := by
  simp only [GraphLayout.createCircle, if_neg hne, GraphLayout.fillEdges]
  exact placeCircle_node _ _ (circleSortedNodes g) 0

end CircleLemmas

section ClaimC8

open GraphLayoutSpec

/-- C8: layouts produced by every layout operation carry exactly the owning
graph's node ids (createCircle gives a permutation of the graph's id list;
changePositions-based operations — relaxation steps, fixViewBox, candidate
and accepted discrete moves — preserve the placed id list), and every edge
list is rebuilt 1:1 from the graph's edge list at construction, independent
of the prior layout's edges. -/
theorem claim_C8_layout_invariants :
    (∀ g : GraphDefinition, (graphIds g).Nodup →
      (layoutIds (GraphLayout.createCircle g)).Perm (graphIds g)) ∧
    (∀ (l : GraphLayout) (f : LayoutNode → LayoutNode),
      (∀ x, (f x).node.designerId = x.node.designerId) →
      layoutIds (l.changePositions f) = layoutIds l) ∧
    (∀ l : GraphLayout, layoutIds l.springyStep = layoutIds l ∧
      layoutIds l.fixViewBox = layoutIds l) ∧
    (∀ (l : GraphLayout) (n : LayoutNode), ∀ c ∈ l.tryMoveNode n,
      layoutIds c = layoutIds l) ∧
    (∀ (l r : GraphLayout), l.tryMoveElement = some r →
      layoutIds r = layoutIds l) ∧
    (∀ (l : GraphLayout) (f : LayoutNode → LayoutNode),
      (l.changePositions f).edges.map LayoutEdge.edge = l.graph.edges) ∧
    (∀ g : GraphDefinition, (∀ e ∈ g.edges, e.source ∈ graphIds g) →
      (GraphLayout.createCircle g).edges.map LayoutEdge.edge = g.edges) ∧
    (∀ (g : GraphDefinition) (ns : List LayoutNode) (e1 e2 : List LayoutEdge)
      (f : LayoutNode → LayoutNode),
      GraphLayout.changePositions ⟨g, ns, e1⟩ f =
        GraphLayout.changePositions ⟨g, ns, e2⟩ f) := by
  have hb : ∀ (l : GraphLayout) (f : LayoutNode → LayoutNode),
      (∀ x, (f x).node.designerId = x.node.designerId) →
      layoutIds (l.changePositions f) = layoutIds l := by
    intro l f hf
    show (l.nodes.map f).map (fun ln => ln.node.designerId) = _
    rw [List.map_map]
    exact List.map_congr_left fun x _ => hf x
  have hd : ∀ (l : GraphLayout) (n : LayoutNode), ∀ c ∈ l.tryMoveNode n,
      layoutIds c = layoutIds l := by
    intro l n c hc
    simp only [GraphLayout.tryMoveNode, List.mem_cons, List.not_mem_nil, or_false] at hc
    rcases hc with rfl | rfl | rfl | rfl | rfl | rfl | rfl | rfl <;>
      refine hb l _ fun x => ?_ <;>
      · by_cases hx : x.node.designerId = n.node.designerId
        · rw [if_pos hx, hx]
          rfl
        · rw [if_neg hx]
  have hedges : ∀ (l : GraphLayout) (f : LayoutNode → LayoutNode),
      (l.changePositions f).edges.map LayoutEdge.edge = l.graph.edges := by
    intro l f
    show (l.graph.edges.map _).map LayoutEdge.edge = l.graph.edges
    rw [List.map_map]
    exact List.map_id' l.graph.edges
  refine ⟨?_, hb, ?_, hd, ?_, hedges, ?_, fun g ns e1 e2 f => rfl⟩
  · intro g hnodup
    by_cases hemp : g.nodes.isEmpty = true
    · have hnil : g.nodes = [] := List.isEmpty_iff.1 hemp
      show layoutIds (GraphLayout.createCircle g) |>.Perm (graphIds g)
      unfold GraphLayout.createCircle
      rw [if_pos hemp]
      unfold layoutIds graphIds
      rw [hnil]
      rfl
    · have hpm := (circleSortedNodes_perm g hnodup).1
      have hmap := createCircle_nodes_map g hemp
      unfold layoutIds graphIds
      have : (GraphLayout.createCircle g).nodes.map (fun ln => ln.node.designerId) =
          ((GraphLayout.createCircle g).nodes.map LayoutNode.node).map
            GraphNode.designerId := by
        rw [List.map_map]
        rfl
      rw [this, hmap]
      exact hpm.map GraphNode.designerId
  · intro l
    constructor
    · exact hb l _ fun x => rfl
    · show layoutIds (l.changePositions _) = layoutIds l
      exact hb l _ fun x => rfl
  · intro l r hr
    exact tryMoveElement_pres l (fun c => layoutIds c = layoutIds l)
      (fun n _ c hc => hd l n c hc) r hr
  · intro g hwf
    by_cases hemp : g.nodes.isEmpty = true
    · have hnil : g.nodes = [] := List.isEmpty_iff.1 hemp
      have hed : g.edges = [] := by
        rw [List.eq_nil_iff_forall_not_mem]
        intro e he
        have := hwf e he
        unfold graphIds at this
        rw [hnil] at this
        exact absurd this (List.not_mem_nil _)
      unfold GraphLayout.createCircle
      rw [if_pos hemp, hed]
      rfl
    · show (GraphLayout.createCircle g).edges.map LayoutEdge.edge = g.edges
      unfold GraphLayout.createCircle
      rw [if_neg hemp]
      show ((GraphLayout.fillEdges _).edges).map LayoutEdge.edge = g.edges
      unfold GraphLayout.fillEdges
      show (g.edges.map _).map LayoutEdge.edge = g.edges
      rw [List.map_map]
      exact List.map_id' g.edges

/-- C8 witness: the theorem applied to concrete graphs and layouts. -/
theorem claim_C8_witness :
    (layoutIds (GraphLayout.createCircle sampleGraphAB)).Perm (graphIds sampleGraphAB) ∧
      layoutIds (sampleOverlapLayout.changePositions fun x => x) =
        layoutIds sampleOverlapLayout ∧
      layoutIds ((sampleOverlapLayout.tryMoveNode lnA).headI) =
        layoutIds sampleOverlapLayout ∧
      (∃ r, sampleSingleLayout.tryMoveElement = some r ∧
        layoutIds r = layoutIds sampleSingleLayout) ∧
      (GraphLayout.createCircle sampleGraphEdge).edges.map LayoutEdge.edge =
        sampleGraphEdge.edges := by
  obtain ⟨ha, hb, _, hd, he, _, hg, _⟩ := claim_C8_layout_invariants
  refine ⟨ha sampleGraphAB (by decide), hb _ _ fun x => rfl, ?_, ?_, ?_⟩
  · exact hd sampleOverlapLayout lnA _
      (headI_mem_of_ne_nil _ (by simp [GraphLayout.tryMoveNode]))
  · obtain ⟨r, hr⟩ := tryMoveElement_some sampleSingleLayout
      (by simp [sampleSingleLayout])
    exact ⟨r, hr, he _ _ hr⟩
  · exact hg sampleGraphEdge (by decide)

end ClaimC8

section ClaimC6

open GraphLayoutSpec

/-- List maxima are permutation invariant. -/
theorem maximum_perm {l1 l2 : List ℝ} (h : l1.Perm l2) :
    l1.maximum = l2.maximum := by
  cases h2 : l2.maximum with
  | bot =>
    have hnil : l2 = [] := List.maximum_eq_bot.1 h2
    subst hnil
    rw [List.maximum_eq_bot.2 h.eq_nil]
  | coe m =>
    have h3 := List.maximum_eq_coe_iff.1 h2
    exact List.maximum_eq_coe_iff.2
      ⟨h.mem_iff.2 h3.1, fun a ha => h3.2 a (h.mem_iff.1 ha)⟩

/-- Every initialized node's radius is nonnegative. -/
theorem initNode_radius_nonneg (g : GraphDefinition) (n : GraphNode) :
    0 ≤ (GraphNode.initNode g n).radius :=
  Real.sqrt_nonneg _

/-- In an initialized graph the maximum node radius is nonnegative. -/
theorem maxNodeRadius_nonneg (g : GraphDefinition) :
    0 ≤ maxNodeRadius (GraphDefinition.initGraph g) := by
  unfold maxNodeRadius
  cases h : ((GraphDefinition.initGraph g).nodes.map GraphNode.radius).maximum with
  | bot => exact le_refl 0
  | coe m =>
    have hm := List.maximum_mem h
    obtain ⟨n, hn, rfl⟩ := List.mem_map.1 hm
    unfold GraphDefinition.initGraph at hn
    obtain ⟨n0, _, rfl⟩ := List.mem_map.1 hn
    exact initNode_radius_nonneg g n0

/-- A node with a nonzero dimension makes the initialized maximum radius
strictly positive. -/
theorem maxNodeRadius_pos (g : GraphDefinition)
    (hpos : ∃ x ∈ g.nodes, x.width ≠ 0 ∨ x.height ≠ 0) :
    0 < maxNodeRadius (GraphDefinition.initGraph g) := by
  obtain ⟨x, hx, hdim⟩ := hpos
  have hxmem : (GraphNode.initNode g x).radius ∈
      ((GraphDefinition.initGraph g).nodes.map GraphNode.radius) := by
    refine List.mem_map_of_mem _ ?_
    unfold GraphDefinition.initGraph
    exact List.mem_map_of_mem _ hx
  have hradpos : 0 < (GraphNode.initNode g x).radius := by
    show 0 < Real.sqrt ((x.width : ℝ) * x.width / 4 + (x.height : ℝ) * x.height / 4)
    apply Real.sqrt_pos.2
    rcases hdim with hw | hh
    · have hw' : ((x.width : ℝ)) ≠ 0 := by exact_mod_cast hw
      nlinarith [mul_self_pos.2 hw', mul_self_nonneg ((x.height : ℝ))]
    · have hh' : ((x.height : ℝ)) ≠ 0 := by exact_mod_cast hh
      nlinarith [mul_self_pos.2 hh', mul_self_nonneg ((x.width : ℝ))]
  cases h : ((GraphDefinition.initGraph g).nodes.map GraphNode.radius).maximum with
  | bot =>
    have := List.maximum_eq_bot.1 h
    rw [this] at hxmem
    exact absurd hxmem (List.not_mem_nil _)
  | coe m =>
    have hle := List.le_maximum_of_mem hxmem h
    unfold maxNodeRadius
    rw [h]
    show (0 : ℝ) < m
    linarith

/-- With a positive maximum radius the circle radius is positive. -/
theorem circleRadius_pos (g : GraphDefinition)
    (hR : 0 < maxNodeRadius (GraphDefinition.initGraph g)) :
    0 < circleRadius (GraphDefinition.initGraph g) := by
  unfold circleRadius
  have hpi := Real.pi_pos
  have h1 : 0 ≤ ((GraphDefinition.initGraph g).nodes.length : ℝ) *
      maxNodeRadius (GraphDefinition.initGraph g) / (2 * Real.pi) := by
    apply div_nonneg
    · positivity
    · positivity
  linarith

/-- The nodes of a nonempty createCircle layout, written through the
placement loop. -/
theorem createCircle_nodes_eq (g : GraphDefinition)
    (hemp : ¬ g.nodes.isEmpty = true) :
    (GraphLayout.createCircle g).nodes =
      placeCircle
        (((circleSortedNodes g).length : ℝ) *
            (((circleSortedNodes g).map GraphNode.radius).maximum.unbot' 0) /
            (2 * Real.pi) +
          (((circleSortedNodes g).map GraphNode.radius).maximum.unbot' 0))
        (2 * Real.pi / ((circleSortedNodes g).length : ℝ))
        (circleSortedNodes g) 0 := by
  simp only [GraphLayout.createCircle, if_neg hemp, GraphLayout.fillEdges]

/-- The circular traversal's angle step separates indices below the node
count: equal sine and cosine force equal indices. -/
theorem circle_angle_inj (N : ℕ) (hN : 0 < N) (i j : ℕ) (hi : i < N) (hj : j < N)
    (hcos : Real.cos ((i : ℝ) * (2 * Real.pi / N)) =
      Real.cos ((j : ℝ) * (2 * Real.pi / N)))
    (hsin : Real.sin ((i : ℝ) * (2 * Real.pi / N)) =
      Real.sin ((j : ℝ) * (2 * Real.pi / N))) :
    i = j := by
  have hang := Real.Angle.cos_sin_inj hcos hsin
  obtain ⟨k, hk⟩ := Real.Angle.angle_eq_iff_two_pi_dvd_sub.1 hang
  have hNR : (0 : ℝ) < N := by exact_mod_cast hN
  have hNne : ((N : ℝ)) ≠ 0 := ne_of_gt hNR
  have hpi2 : (0 : ℝ) < 2 * Real.pi := by positivity
  have hij : (i : ℝ) - j = k * N := by
    have h3 : ((i : ℝ) - j) * (2 * Real.pi / N) = 2 * Real.pi * k := by
      rw [← hk]
      ring
    rw [← mul_div_assoc] at h3
    have h4 := (div_eq_iff hNne).1 h3
    have h6 : ((i : ℝ) - j) * (2 * Real.pi) = ((k : ℝ) * N) * (2 * Real.pi) := by
      rw [h4]
      ring
    exact mul_right_cancel₀ (ne_of_gt hpi2) h6
  have hijz : (i : ℤ) - j = k * N := by exact_mod_cast hij
  have hiz : (i : ℤ) < N := by exact_mod_cast hi
  have hjz : (j : ℤ) < N := by exact_mod_cast hj
  have hi0 : (0 : ℤ) ≤ (i : ℤ) := Int.ofNat_nonneg i
  have hj0 : (0 : ℤ) ≤ (j : ℤ) := Int.ofNat_nonneg j
  have hNz : (0 : ℤ) < N := by exact_mod_cast hN
  have hk0 : k = 0 := by
    rcases lt_trichotomy k 0 with h | h | h
    · nlinarith
    · exact h
    · nlinarith
  rw [hk0] at hijz
  omega

/-- C6 amended: for every graph with duplicate-free ids, at least one node,
and some node of nonzero size, the circular initial layout of the
initialized graph places all N nodes (N = node count; the placement order is
a permutation of the graph's nodes), the k-th ordered node sitting at
(sin(k*2*pi/N)*r, cos(k*2*pi/N)*r) for r = (N*R)/(2*pi) + R with R the
maximum node radius; every position lies at distance exactly r from the
origin, and the N positions are pairwise distinct. -/
theorem claim_C6_circle_positions (g : GraphDefinition)
    (hnodup : (graphIds g).Nodup) (hne : g.nodes ≠ [])
    (hpos : ∃ x ∈ g.nodes, x.width ≠ 0 ∨ x.height ≠ 0) :
    (GraphLayout.createCircle (GraphDefinition.initGraph g)).nodes.length =
        g.nodes.length ∧
      (GraphLayout.createCircle (GraphDefinition.initGraph g)).nodes.map
          LayoutNode.node = circleSortedNodes (GraphDefinition.initGraph g) ∧
      (circleSortedNodes (GraphDefinition.initGraph g)).Perm
        (GraphDefinition.initGraph g).nodes ∧
      (∀ k (hk : k <
          (GraphLayout.createCircle (GraphDefinition.initGraph g)).nodes.length),
        ((GraphLayout.createCircle (GraphDefinition.initGraph g)).nodes.get
            ⟨k, hk⟩).x =
          Real.sin ((k : ℝ) * (2 * Real.pi / (g.nodes.length : ℝ))) *
            circleRadius (GraphDefinition.initGraph g) ∧
        ((GraphLayout.createCircle (GraphDefinition.initGraph g)).nodes.get
            ⟨k, hk⟩).y =
          Real.cos ((k : ℝ) * (2 * Real.pi / (g.nodes.length : ℝ))) *
            circleRadius (GraphDefinition.initGraph g)) ∧
      (∀ ln ∈ (GraphLayout.createCircle (GraphDefinition.initGraph g)).nodes,
        Real.sqrt (ln.x * ln.x + ln.y * ln.y) =
          circleRadius (GraphDefinition.initGraph g)) ∧
      ((GraphLayout.createCircle (GraphDefinition.initGraph g)).nodes.map
        LayoutNode.position).Nodup := by
  have hgid : graphIds (GraphDefinition.initGraph g) = graphIds g := by
    unfold graphIds GraphDefinition.initGraph
    rw [List.map_map]
    rfl
  have hnodup' : (graphIds (GraphDefinition.initGraph g)).Nodup := by
    rw [hgid]; exact hnodup
  have hlen0 : (GraphDefinition.initGraph g).nodes.length = g.nodes.length := by
    unfold GraphDefinition.initGraph
    exact List.length_map _ _
  have hne' : (GraphDefinition.initGraph g).nodes ≠ [] := by
    intro hnil
    have := congrArg List.length hnil
    rw [hlen0] at this
    exact hne (List.length_eq_zero.1 this)
  have hemp : ¬ (GraphDefinition.initGraph g).nodes.isEmpty = true := by
    intro h
    exact hne' (List.isEmpty_iff.1 h)
  have hperm := (circleSortedNodes_perm (GraphDefinition.initGraph g) hnodup').1
  have hcsnlen : (circleSortedNodes (GraphDefinition.initGraph g)).length =
      g.nodes.length := by
    rw [hperm.length_eq, hlen0]
  have hNpos : 0 < g.nodes.length := List.length_pos.2 hne
  have hmax : (((circleSortedNodes (GraphDefinition.initGraph g)).map
      GraphNode.radius).maximum.unbot' 0) =
      maxNodeRadius (GraphDefinition.initGraph g) := by
    unfold maxNodeRadius
    rw [maximum_perm (hperm.map GraphNode.radius)]
  have hr0 : (((circleSortedNodes (GraphDefinition.initGraph g)).length : ℝ) *
      (((circleSortedNodes (GraphDefinition.initGraph g)).map
        GraphNode.radius).maximum.unbot' 0) / (2 * Real.pi) +
      (((circleSortedNodes (GraphDefinition.initGraph g)).map
        GraphNode.radius).maximum.unbot' 0)) =
      circleRadius (GraphDefinition.initGraph g) := by
    unfold circleRadius
    rw [hmax, hcsnlen, hlen0]
  have hd0 : (2 * Real.pi /
      ((circleSortedNodes (GraphDefinition.initGraph g)).length : ℝ)) =
      2 * Real.pi / (g.nodes.length : ℝ) := by
    rw [hcsnlen]
  have hnodes := createCircle_nodes_eq (GraphDefinition.initGraph g) hemp
  rw [hr0, hd0] at hnodes
  have hLlen : (GraphLayout.createCircle (GraphDefinition.initGraph g)).nodes.length =
      g.nodes.length := by
    rw [hnodes, placeCircle_length, hcsnlen]
  have hget : ∀ k (hk : k <
      (GraphLayout.createCircle (GraphDefinition.initGraph g)).nodes.length),
      (GraphLayout.createCircle (GraphDefinition.initGraph g)).nodes.get ⟨k, hk⟩ =
        ⟨(circleSortedNodes (GraphDefinition.initGraph g)).get
            ⟨k, by rw [hcsnlen, ← hLlen]; exact hk⟩,
          Real.sin ((k : ℝ) * (2 * Real.pi / (g.nodes.length : ℝ))) *
            circleRadius (GraphDefinition.initGraph g),
          Real.cos ((k : ℝ) * (2 * Real.pi / (g.nodes.length : ℝ))) *
            circleRadius (GraphDefinition.initGraph g)⟩ := by
    intro k hk
    have hk' : k < (circleSortedNodes (GraphDefinition.initGraph g)).length := by
      rw [hcsnlen, ← hLlen]
      exact hk
    have h1 := List.get_of_eq hnodes ⟨k, hk⟩
    rw [h1]
    have h2 := placeCircle_get
      (circleRadius (GraphDefinition.initGraph g))
      (2 * Real.pi / (g.nodes.length : ℝ))
      (circleSortedNodes (GraphDefinition.initGraph g)) 0 k hk'
    rw [h2]
    have hangle : (0 : ℝ) + (k : ℝ) * (2 * Real.pi / (g.nodes.length : ℝ)) =
        (k : ℝ) * (2 * Real.pi / (g.nodes.length : ℝ)) := by ring
    rw [hangle]
  have hRpos := maxNodeRadius_pos g hpos
  have hrpos := circleRadius_pos g hRpos
  refine ⟨hLlen, ?_, hperm, ?_, ?_, ?_⟩
  · rw [hnodes]
    exact placeCircle_node _ _ _ 0
  · intro k hk
    rw [hget k hk]
    exact ⟨rfl, rfl⟩
  · intro ln hln
    obtain ⟨i, hi⟩ := List.mem_iff_get.1 hln
    obtain ⟨k, hk⟩ := i
    rw [← hi, hget k hk]
    show Real.sqrt (Real.sin _ * circleRadius _ * (Real.sin _ * circleRadius _) +
      Real.cos _ * circleRadius _ * (Real.cos _ * circleRadius _)) = _
    have harg : Real.sin ((k : ℝ) * (2 * Real.pi / (g.nodes.length : ℝ))) *
        circleRadius (GraphDefinition.initGraph g) *
        (Real.sin ((k : ℝ) * (2 * Real.pi / (g.nodes.length : ℝ))) *
          circleRadius (GraphDefinition.initGraph g)) +
        Real.cos ((k : ℝ) * (2 * Real.pi / (g.nodes.length : ℝ))) *
        circleRadius (GraphDefinition.initGraph g) *
        (Real.cos ((k : ℝ) * (2 * Real.pi / (g.nodes.length : ℝ))) *
          circleRadius (GraphDefinition.initGraph g)) =
        circleRadius (GraphDefinition.initGraph g) ^ 2 *
          (Real.sin ((k : ℝ) * (2 * Real.pi / (g.nodes.length : ℝ))) ^ 2 +
            Real.cos ((k : ℝ) * (2 * Real.pi / (g.nodes.length : ℝ))) ^ 2) := by
      ring
    rw [harg, Real.sin_sq_add_cos_sq, mul_one, Real.sqrt_sq_eq_abs]
    exact abs_of_pos hrpos
  · rw [List.nodup_iff_injective_get]
    intro i j hij
    rcases i with ⟨i, hi⟩
    rcases j with ⟨j, hj⟩
    have hmaplen : ((GraphLayout.createCircle
        (GraphDefinition.initGraph g)).nodes.map LayoutNode.position).length =
        (GraphLayout.createCircle (GraphDefinition.initGraph g)).nodes.length :=
      List.length_map _ _
    have hi' : i < (GraphLayout.createCircle
        (GraphDefinition.initGraph g)).nodes.length := by rw [← hmaplen]; exact hi
    have hj' : j < (GraphLayout.createCircle
        (GraphDefinition.initGraph g)).nodes.length := by rw [← hmaplen]; exact hj
    have hgi : ((GraphLayout.createCircle
        (GraphDefinition.initGraph g)).nodes.map LayoutNode.position).get ⟨i, hi⟩ =
        LayoutNode.position ((GraphLayout.createCircle
          (GraphDefinition.initGraph g)).nodes.get ⟨i, hi'⟩) := by
      simp [List.get_eq_getElem, List.getElem_map]
    have hgj : ((GraphLayout.createCircle
        (GraphDefinition.initGraph g)).nodes.map LayoutNode.position).get ⟨j, hj⟩ =
        LayoutNode.position ((GraphLayout.createCircle
          (GraphDefinition.initGraph g)).nodes.get ⟨j, hj'⟩) := by
      simp [List.get_eq_getElem, List.getElem_map]
    rw [hgi, hgj, hget i hi', hget j hj'] at hij
    unfold LayoutNode.position at hij
    have hx := congrArg Vector2D.x hij
    have hy := congrArg Vector2D.y hij
    simp only at hx hy
    have hrne : circleRadius (GraphDefinition.initGraph g) ≠ 0 := ne_of_gt hrpos
    have hsin : Real.sin ((i : ℝ) * (2 * Real.pi / (g.nodes.length : ℝ))) =
        Real.sin ((j : ℝ) * (2 * Real.pi / (g.nodes.length : ℝ))) :=
      mul_right_cancel₀ hrne hx
    have hcos : Real.cos ((i : ℝ) * (2 * Real.pi / (g.nodes.length : ℝ))) =
        Real.cos ((j : ℝ) * (2 * Real.pi / (g.nodes.length : ℝ))) :=
      mul_right_cancel₀ hrne hy
    have hieq : i = j := by
      apply circle_angle_inj g.nodes.length hNpos i j
      · rw [← hLlen, ← hmaplen]; exact hi
      · rw [← hLlen, ← hmaplen]; exact hj
      · exact hcos
      · exact hsin
    exact Fin.ext hieq

/-- With zero circle radius every placed position collapses to the origin. -/
theorem placeCircle_zero_position (d : ℝ) :
    ∀ (ns : List GraphNode) (a : ℝ), ∀ ln ∈ placeCircle 0 d ns a,
      LayoutNode.position ln = ⟨0, 0⟩ := by
  intro ns
  induction ns with
  | nil => intro a ln hln; exact absurd hln (List.not_mem_nil ln)
  | cons n rest ih =>
    intro a ln hln
    rcases List.mem_cons.1 hln with rfl | hln'
    · show (⟨Real.sin a * 0, Real.cos a * 0⟩ : Vector2D) = ⟨0, 0⟩
      rw [mul_zero, mul_zero]
    · exact ih (a + d) ln hln'

/-- C6 counterexample: the two-node graph whose nodes both have width and
height 0 is an initialized graph with N = 2 nodes, yet the circular builder
places both nodes at the same position (the circle radius is 0), so the
positions are not distinct as the claim states. -/
theorem claim_C6_counterexample :
    (GraphLayout.createCircle (GraphDefinition.initGraph zeroGraph)).nodes.length = 2 ∧
      ¬ ((GraphLayout.createCircle (GraphDefinition.initGraph zeroGraph)).nodes.map
        LayoutNode.position).Nodup := by
  have hnodup' : (graphIds (GraphDefinition.initGraph zeroGraph)).Nodup := by
    rw [show graphIds (GraphDefinition.initGraph zeroGraph) = ["a", "b"] from rfl]
    decide
  have hperm := (circleSortedNodes_perm (GraphDefinition.initGraph zeroGraph) hnodup').1
  have hemp : ¬ (GraphDefinition.initGraph zeroGraph).nodes.isEmpty = true := by
    rw [show (GraphDefinition.initGraph zeroGraph).nodes.isEmpty = false from rfl]
    simp
  have hlen2 : (circleSortedNodes (GraphDefinition.initGraph zeroGraph)).length = 2 := by
    rw [hperm.length_eq]
    rfl
  have hnodes := createCircle_nodes_eq (GraphDefinition.initGraph zeroGraph) hemp
  have hzero : ∀ x ∈ (circleSortedNodes (GraphDefinition.initGraph zeroGraph)).map
      GraphNode.radius, x = 0 := by
    intro x hx
    obtain ⟨n, hn, rfl⟩ := List.mem_map.1 hx
    have hng : n ∈ (GraphDefinition.initGraph zeroGraph).nodes := hperm.subset hn
    rw [show (GraphDefinition.initGraph zeroGraph).nodes =
      [GraphNode.initNode zeroGraph zeroNodeA,
        GraphNode.initNode zeroGraph zeroNodeB] from rfl] at hng
    rcases List.mem_cons.1 hng with rfl | hng2
    · show Real.sqrt ((zeroNodeA.width : ℝ) * zeroNodeA.width / 4 +
        (zeroNodeA.height : ℝ) * zeroNodeA.height / 4) = 0
      norm_num [zeroNodeA, Real.sqrt_zero]
    · rw [List.mem_singleton.1 hng2]
      show Real.sqrt ((zeroNodeB.width : ℝ) * zeroNodeB.width / 4 +
        (zeroNodeB.height : ℝ) * zeroNodeB.height / 4) = 0
      norm_num [zeroNodeB, Real.sqrt_zero]
  have hmax0 : (((circleSortedNodes (GraphDefinition.initGraph zeroGraph)).map
      GraphNode.radius).maximum.unbot' 0) = 0 := by
    cases h : ((circleSortedNodes (GraphDefinition.initGraph zeroGraph)).map
        GraphNode.radius).maximum with
    | bot => rfl
    | coe m =>
      have hm := List.maximum_mem h
      exact hzero m hm
  have hrzero : (((circleSortedNodes (GraphDefinition.initGraph zeroGraph)).length : ℝ) *
      (((circleSortedNodes (GraphDefinition.initGraph zeroGraph)).map
        GraphNode.radius).maximum.unbot' 0) / (2 * Real.pi) +
      (((circleSortedNodes (GraphDefinition.initGraph zeroGraph)).map
        GraphNode.radius).maximum.unbot' 0)) = 0 := by
    rw [hmax0]
    norm_num
  rw [hrzero] at hnodes
  constructor
  · rw [hnodes, placeCircle_length, hlen2]
  · have hposz : ∀ ln ∈ (GraphLayout.createCircle
        (GraphDefinition.initGraph zeroGraph)).nodes,
        LayoutNode.position ln = ⟨0, 0⟩ := by
      rw [hnodes]
      intro ln hln
      exact placeCircle_zero_position _ _ _ ln hln
    have hlenmap : ((GraphLayout.createCircle
        (GraphDefinition.initGraph zeroGraph)).nodes.map LayoutNode.position).length =
        2 := by
      rw [List.length_map, hnodes, placeCircle_length, hlen2]
    obtain ⟨p1, p2, hmap2⟩ := List.length_eq_two.1 hlenmap
    have hp1 : p1 = ⟨0, 0⟩ := by
      have hmem : p1 ∈ (GraphLayout.createCircle
          (GraphDefinition.initGraph zeroGraph)).nodes.map LayoutNode.position := by
        rw [hmap2]
        exact List.mem_cons_self _ _
      obtain ⟨ln, hln, h⟩ := List.mem_map.1 hmem
      rw [← h]
      exact hposz ln hln
    have hp2 : p2 = ⟨0, 0⟩ := by
      have hmem : p2 ∈ (GraphLayout.createCircle
          (GraphDefinition.initGraph zeroGraph)).nodes.map LayoutNode.position := by
        rw [hmap2]
        exact List.mem_cons_of_mem _ (List.mem_cons_self _ _)
      obtain ⟨ln, hln, h⟩ := List.mem_map.1 hmem
      rw [← h]
      exact hposz ln hln
    rw [hmap2, hp1, hp2]
    simp

/-- C6 witness: the amended theorem applied to the concrete two-node graph
of 100x100 nodes. -/
theorem claim_C6_witness :
    (GraphLayout.createCircle (GraphDefinition.initGraph sampleGraphAB)).nodes.length =
        sampleGraphAB.nodes.length ∧
      (GraphLayout.createCircle (GraphDefinition.initGraph sampleGraphAB)).nodes.map
          LayoutNode.node = circleSortedNodes (GraphDefinition.initGraph sampleGraphAB) ∧
      (circleSortedNodes (GraphDefinition.initGraph sampleGraphAB)).Perm
        (GraphDefinition.initGraph sampleGraphAB).nodes ∧
      (∀ k (hk : k < (GraphLayout.createCircle
          (GraphDefinition.initGraph sampleGraphAB)).nodes.length),
        ((GraphLayout.createCircle (GraphDefinition.initGraph sampleGraphAB)).nodes.get
            ⟨k, hk⟩).x =
          Real.sin ((k : ℝ) * (2 * Real.pi / (sampleGraphAB.nodes.length : ℝ))) *
            circleRadius (GraphDefinition.initGraph sampleGraphAB) ∧
        ((GraphLayout.createCircle (GraphDefinition.initGraph sampleGraphAB)).nodes.get
            ⟨k, hk⟩).y =
          Real.cos ((k : ℝ) * (2 * Real.pi / (sampleGraphAB.nodes.length : ℝ))) *
            circleRadius (GraphDefinition.initGraph sampleGraphAB)) ∧
      (∀ ln ∈ (GraphLayout.createCircle
          (GraphDefinition.initGraph sampleGraphAB)).nodes,
        Real.sqrt (ln.x * ln.x + ln.y * ln.y) =
          circleRadius (GraphDefinition.initGraph sampleGraphAB)) ∧
      ((GraphLayout.createCircle (GraphDefinition.initGraph sampleGraphAB)).nodes.map
        LayoutNode.position).Nodup :=
  claim_C6_circle_positions sampleGraphAB (by decide) (by simp [sampleGraphAB])
    ⟨sampleNodeA, by simp [sampleGraphAB], Or.inl (by norm_num [sampleNodeA])⟩

end ClaimC6

end GraphLayoutSpec
